import Mathlib

/-!
Verification of the P&ID control-system analysis, validation and pipe-routing
core of the EPSBACKUP repository (src/control_systems.py, src/app.py).

The Python code is shallowly embedded: world coordinates (Python floats whose
uses here are exact: halving, scaling by the grid size) become `ℚ`; Python
strings become `String`; Python `None`-able values become `Option`; a Python
`AttributeError` raised inside an analysis pass is modelled by the whole pass
returning `none`; the regular expressions of the source are replaced by
equivalent deterministic character-list parsers (the regexes involved have
disjoint character classes, so greedy matching needs no backtracking).
-/

namespace EPS

/-! ## String utilities (Python `in`, `str.lower`, character classes) -/

/-- Contiguous-sublist test on character lists: `needle` occurs somewhere in
`hay`.  This is Python's substring operator `in`. -/
def charsContains (hay needle : List Char) : Bool :=
  match hay with
  | [] => needle.isEmpty
  | _ :: t => needle.isPrefixOf hay || charsContains t needle

/-- Python `sub in s` (contiguous substring containment). -/
def strContains (s sub : String) : Bool :=
  charsContains s.data sub.data

/-- Python `s.lower()` (ASCII suffices for the tags involved). -/
def strLower (s : String) : String :=
  ⟨s.data.map Char.toLower⟩

/-! ## Tag grammar parsers

`ControlSystemAnalyzer._parse_instrument_function` uses the regex
`^([A-Z])([A-Z]*)[-]?(\d+)$`;
`ProfessionalPnidComponent._check_if_instrument` and
`PnIDValidator.validate_instrument_tags` use `^[A-Z]{2,4}[-]?\d{3,4}[A-Z]?$`;
the validator's fallback parse uses `^([A-Z]+)[-]?(\d+)([A-Z]?)$`.
Since `[A-Z]`, `\d` and `-` are pairwise disjoint, each regex is equivalent to
taking maximal runs, which is what the parsers below do. -/

/-- Split a character list into its maximal leading run satisfying `p` and
the rest. -/
def takeRun (p : Char → Bool) : List Char → List Char × List Char
  | [] => ([], [])
  | c :: cs =>
    if p c then
      let (r, rest) := takeRun p cs
      (c :: r, rest)
    else ([], c :: cs)

/-- Consume one optional `-`. -/
def dropHyphen : List Char → List Char
  | '-' :: cs => cs
  | cs => cs

/-- Parsed instrument tag info (the dict built by
`_parse_instrument_function`).  The source's key `variable` is a Lean keyword
and is rendered as `var`. -/
structure TagInfo where
  var : String
  modifiers : String
  number : String
  is_controller : Bool
  is_transmitter : Bool
  is_valve : Bool
  is_indicator : Bool
  is_alarm : Bool
  deriving DecidableEq

/-- `ControlSystemAnalyzer._parse_instrument_function`: regex
`^([A-Z])([A-Z]*)[-]?(\d+)$`, then role flags from membership of letters in
the modifier group. -/
def parse_instrument_function (tag : String) : Option TagInfo :=
  let (letters, rest) := takeRun Char.isUpper tag.data
  match letters with
  | [] => none
  | v :: mods =>
    let (digits, rest2) := takeRun Char.isDigit (dropHyphen rest)
    if digits.isEmpty || !rest2.isEmpty then none
    else
      let modifiers : String := ⟨mods⟩
      some
        { var := ⟨[v]⟩
          modifiers := modifiers
          number := ⟨digits⟩
          is_controller := strContains modifiers "C"
          is_transmitter := strContains modifiers "T"
          is_valve := strContains modifiers "V"
          is_indicator := strContains modifiers "I"
          is_alarm :=
            strContains modifiers "A" || strContains modifiers "H" ||
              strContains modifiers "L" }

/-- `ProfessionalPnidComponent._check_if_instrument` / the validator's
`tag_pattern`: regex `^[A-Z]{2,4}[-]?\d{3,4}[A-Z]?$`. -/
def matches_instrument_pattern (tag : String) : Bool :=
  let (letters, rest) := takeRun Char.isUpper tag.data
  let (digits, rest2) := takeRun Char.isDigit (dropHyphen rest)
  (2 ≤ letters.length && letters.length ≤ 4) &&
  (3 ≤ digits.length && digits.length ≤ 4) &&
  (match rest2 with
   | [] => true
   | [c] => c.isUpper
   | _ => false)

/-- The validator's fallback parse `^([A-Z]+)[-]?(\d+)([A-Z]?)$`, yielding
(prefix, number, suffix). -/
def parse_tag_fallback (tag : String) : Option (String × String × String) :=
  let (letters, rest) := takeRun Char.isUpper tag.data
  let (digits, rest2) := takeRun Char.isDigit (dropHyphen rest)
  if letters.isEmpty || digits.isEmpty then none
  else
    match rest2 with
    | [] => some (⟨letters⟩, ⟨digits⟩, "")
    | [c] => if c.isUpper then some (⟨letters⟩, ⟨digits⟩, ⟨[c]⟩) else none
    | _ => none

/-! ## Data model (`ProfessionalPnidComponent`, pipes) -/

/-- A component record.  `is_instrument` and `tag_info` are stored by the
source as derived attributes; here they are derived functions. -/
structure Component where
  id : String
  tag : String
  component_type : String
  x : ℚ
  y : ℚ
  width : ℚ
  height : ℚ
  rotation : ℚ
  deriving DecidableEq

/-- `ProfessionalPnidComponent._check_if_instrument`. -/
def Component.is_instrument (c : Component) : Bool :=
  matches_instrument_pattern c.tag

/-- The `tag_info` attribute attached by
`ControlSystemAnalyzer._preprocess_components`: parsed tag info for
instruments, `None` otherwise. -/
def Component.tag_info (c : Component) : Option TagInfo :=
  if c.is_instrument then parse_instrument_function c.tag else none

/-- A pipe record as consumed by the analyzer and validator.  The endpoint
references `from_comp` / `to_comp` are already resolved against the component
map (`component_map.get` in `ProfessionalPnidPipe.__init__`), hence
`Option Component`. -/
structure Pipe where
  id : String
  label : String
  line_type : String
  from_comp : Option Component
  to_comp : Option Component
  from_port : String
  to_port : String
  deriving DecidableEq

/-! ## Control loop inference (`ControlSystemAnalyzer`) -/

inductive LoopType where
  | FLOW
  | PRESSURE
  | LEVEL
  | TEMPERATURE
  | CASCADE
  | RATIO
  | FEEDFORWARD
  deriving DecidableEq

structure ControlLoop where
  loop_id : String
  loop_type : LoopType
  primary_element : String
  controller : String
  final_element : String
  setpoint_source : Option String
  components : List String
  deriving DecidableEq

structure Interlock where
  alarm : String
  action : String
  type : String
  deriving DecidableEq

/-- `ControlSystemAnalyzer._find_connected_instruments`.  The source guards
`pipe.from_comp` against `None` but then dereferences `pipe.to_comp.id`
unguarded (and symmetrically `pipe.from_comp.id` in the `elif` branch); a
missing endpoint on a matching instrumentation pipe therefore raises
`AttributeError`, modelled as `none`. -/
def find_connected_instruments (pipes : List Pipe) (component_id : String) :
    Option (List String) :=
  pipes.foldlM (fun connected pipe =>
    if pipe.line_type = "instrumentation" then
      match pipe.from_comp with
      | some fc =>
        if fc.id = component_id then
          match pipe.to_comp with
          | some tc => some (connected ++ [tc.id])
          | none => none
        else
          match pipe.to_comp with
          | some tc =>
            if tc.id = component_id then some (connected ++ [fc.id])
            else some connected
          | none => some connected
      | none =>
        match pipe.to_comp with
        | some tc =>
          if tc.id = component_id then none
          else some connected
        | none => some connected
    else some connected) []

/-- `ControlSystemAnalyzer._determine_loop_type`. -/
def determine_loop_type (v : String) : LoopType :=
  if v = "F" then .FLOW
  else if v = "P" then .PRESSURE
  else if v = "L" then .LEVEL
  else if v = "T" then .TEMPERATURE
  else .FLOW

/-- Python truthiness of an optional string (`if transmitter_id and
final_element_id:`): present and non-empty. -/
def truthyOptStr : Option String → Bool
  | none => false
  | some s => !(s = "")

/-- The instrument classification pass at the top of
`_analyze_control_systems`: controllers / transmitters / control valves /
alarms, in component-dict insertion order, decided by the `elif` chain on the
parsed tag flags. -/
def classify_instruments (components : List (String × Component)) :
    List (String × Component × TagInfo) × List (String × Component × TagInfo) ×
    List (String × Component × TagInfo) × List (String × Component × TagInfo) :=
  components.foldl (fun (acc :
      List (String × Component × TagInfo) × List (String × Component × TagInfo) ×
      List (String × Component × TagInfo) × List (String × Component × TagInfo))
      (entry : String × Component) =>
    let (controllers, transmitters, control_valves, alarms) := acc
    let (comp_id, comp) := entry
    match (if comp.is_instrument then comp.tag_info else none) with
    | none => acc
    | some ta =>
      if ta.is_controller then
        (controllers ++ [(comp_id, comp, ta)], transmitters, control_valves, alarms)
      else if ta.is_transmitter then
        (controllers, transmitters ++ [(comp_id, comp, ta)], control_valves, alarms)
      else if ta.is_valve then
        (controllers, transmitters, control_valves ++ [(comp_id, comp, ta)], alarms)
      else if ta.is_alarm then
        (controllers, transmitters, control_valves, alarms ++ [(comp_id, comp, ta)])
      else acc) ([], [], [], [])

/-- Assoc-list lookup keyed like a Python dict (`key in d` / `d[key]`). -/
def dictLookup {β : Type} (d : List (String × β)) (k : String) : Option β :=
  match d with
  | [] => none
  | (k2, v) :: rest => if k2 = k then some v else dictLookup rest k

/-- The per-controller scan over its one-hop signal neighbours: select the
matching transmitter and a final control element (last match wins, as the
source reassigns on every hit). -/
def select_loop_elements (components : List (String × Component))
    (transmitters control_valves : List (String × Component × TagInfo))
    (controller_info : TagInfo) (connected : List String) :
    Option String × Option String :=
  connected.foldl (fun (acc : Option String × Option String) conn_id =>
    let (transmitter_id, final_element_id) := acc
    let transmitter_id :=
      match dictLookup transmitters conn_id with
      | some (_, trans_info) =>
        if trans_info.var = controller_info.var &&
            trans_info.number = controller_info.number then
          some conn_id
        else transmitter_id
      | none => transmitter_id
    let final_element_id :=
      match dictLookup control_valves conn_id with
      | some _ => some conn_id
      | none =>
        match dictLookup components conn_id with
        | some comp =>
          if strContains comp.component_type "valve" then some conn_id
          else final_element_id
        | none => final_element_id
    (transmitter_id, final_element_id)) (none, none)

/-- The body of the control-loop identification loop of
`_analyze_control_systems`, for one controller: gather one-hop signal
neighbours (which can raise), select the matching transmitter and final
element, and emit a `ControlLoop` only when both are truthy. -/
def loop_step (components : List (String × Component))
    (transmitters control_valves : List (String × Component × TagInfo))
    (pipes : List Pipe) (acc : List ControlLoop)
    (entry : String × Component × TagInfo) : Option (List ControlLoop) :=
  let controller_id := entry.1
  let controller_info := entry.2.2
  (find_connected_instruments pipes controller_id).bind fun connected =>
    let sel :=
      select_loop_elements components transmitters control_valves
        controller_info connected
    if truthyOptStr sel.1 && truthyOptStr sel.2 then
      let primary := sel.1.getD ""
      let final := sel.2.getD ""
      let loop : ControlLoop :=
        { loop_id := controller_info.var ++ "C-" ++ controller_info.number
          loop_type := determine_loop_type controller_info.var
          primary_element := primary
          controller := controller_id
          final_element := final
          setpoint_source := none
          components := [primary, controller_id, final] }
      some (acc ++ [loop])
    else
      some acc

/-- The body of the interlock identification loop of
`_analyze_control_systems`, for one alarm instrument. -/
def interlock_step (components : List (String × Component))
    (pipes : List Pipe) (acc : List Interlock)
    (entry : String × Component × TagInfo) : Option (List Interlock) :=
  let alarm_id := entry.1
  (find_connected_instruments pipes alarm_id).bind fun connected =>
    some (connected.foldl (fun acc2 conn_id =>
      match dictLookup components conn_id with
      | some comp =>
        if strContains comp.tag "SDV" || strContains comp.tag "XV" ||
            strContains (strLower comp.tag) "trip" then
          acc2 ++ [{ alarm := alarm_id, action := conn_id,
                     type := "Safety Interlock" }]
        else acc2
      | none => acc2) acc)

/-- `ControlSystemAnalyzer._analyze_control_systems`: control-loop inference
followed by interlock detection.  Returns `none` when the source would raise
(see `find_connected_instruments`). -/
def analyze_control_systems (components : List (String × Component))
    (pipes : List Pipe) : Option (List ControlLoop × List Interlock) :=
  let cls := classify_instruments components
  let controllers := cls.1
  let transmitters := cls.2.1
  let control_valves := cls.2.2.1
  let alarms := cls.2.2.2
  (controllers.foldlM (loop_step components transmitters control_valves pipes)
      []).bind fun loops =>
    (alarms.foldlM (interlock_step components pipes) []).bind fun interlocks =>
      some (loops, interlocks)

/-! ## Validation (`PnIDValidator`) -/

/-- The validator's accumulating state (`self.errors`, `self.warnings`). -/
structure VState where
  errors : List String
  warnings : List String
  deriving DecidableEq

/-- The dict returned by `validate_all`. -/
structure VResult where
  errors : List String
  warnings : List String
  is_valid : Bool
  deriving DecidableEq

/-- Python dict assignment `d[k] = v` on an assoc list: replace the binding
if the key is present, else append. -/
def dictSet {β : Type} (d : List (String × β)) (k : String) (v : β) :
    List (String × β) :=
  match d with
  | [] => [(k, v)]
  | (k2, v2) :: rest =>
    if k2 = k then (k2, v) :: rest else (k2, v2) :: dictSet rest k v

/-- Each validation check walks a list, appending error/warning messages and
updating an auxiliary dictionary.  `runAppend` is that common shape: `step`
returns the messages appended for one element together with the new auxiliary
state. -/
def appendStep {α σ : Type} (step : σ → α → List String × List String × σ)
    (acc : VState × σ) (x : α) : VState × σ :=
  let d := step acc.2 x
  (⟨acc.1.errors ++ d.1, acc.1.warnings ++ d.2.1⟩, d.2.2)

def runAppend {α σ : Type} (step : σ → α → List String × List String × σ)
    (xs : List α) (st : VState) (aux : σ) : VState × σ :=
  xs.foldl (appendStep step) (st, aux)

/-- The fixed prefix whitelist of `validate_instrument_tags`. -/
def valid_prefixes : List String :=
  ["F", "P", "T", "L", "A", "V", "E", "I", "S", "Z",
   "FT", "PT", "TT", "LT", "FI", "PI", "TI", "LI",
   "FC", "PC", "TC", "LC", "FIC", "PIC", "TIC", "LIC",
   "FV", "PV", "TV", "LV", "FCV", "PCV", "TCV", "LCV",
   "FAL", "PAL", "TAL", "LAL", "FAH", "PAH", "TAH", "LAH",
   "SF", "YS", "CP", "CPT", "SCR", "SIL", "GV", "PR", "RM", "LS", "FS",
   "FA", "DP"]

/-- One component's contribution in `validate_instrument_tags`: format error,
duplicate-tag error against the `tag_numbers` dict, prefix warning.  The
source parses via `tag_info` when available, else the fallback regex, and
`continue`s (emitting nothing further) when both fail. -/
def vit_step (tag_numbers : List (String × String))
    (entry : String × Component) :
    List String × List String × List (String × String) :=
  let (comp_id, comp) := entry
  if comp.is_instrument then
    let formatErrors :=
      if matches_instrument_pattern comp.tag then []
      else ["Invalid instrument tag format: " ++ comp.tag]
    let parsed : Option (String × String × String) :=
      match comp.tag_info with
      | some ta => some (ta.var ++ ta.modifiers, ta.number, "")
      | none => parse_tag_fallback comp.tag
    match parsed with
    | none => (formatErrors, [], tag_numbers)
    | some (pfx, number, suffix) =>
      let full_tag :=
        if !(suffix = "") then pfx ++ "-" ++ number ++ suffix
        else pfx ++ "-" ++ number
      let dupErrors :=
        match dictLookup tag_numbers full_tag with
        | some _ => ["Duplicate instrument tag: " ++ comp.tag]
        | none => []
      let prefixWarnings :=
        if valid_prefixes.contains pfx then []
        else ["Non-standard instrument prefix: " ++ pfx ++ " in " ++ comp.tag]
      (formatErrors ++ dupErrors, prefixWarnings,
        dictSet tag_numbers full_tag comp_id)
  else ([], [], tag_numbers)

/-- `PnIDValidator.validate_instrument_tags`. -/
def validate_instrument_tags (components : List (String × Component))
    (st : VState) : VState :=
  (runAppend vit_step components st []).1

/-- One pipe's contribution in `validate_flow_directions`. -/
def vfd_step (_ : Unit) (pipe : Pipe) : List String × List String × Unit :=
  match pipe.from_comp, pipe.to_comp with
  | some fc, some tc =>
    if pipe.line_type = "process" then
      let pumpWarnings :=
        if strContains fc.component_type "pump" &&
            !(pipe.from_port = "discharge") then
          ["Pump " ++ fc.tag ++ " should connect from discharge port"]
        else []
      let valid_vessel_inlets := ["top", "inlet", "side_top", "side_bottom"]
      let vesselWarnings :=
        if (strContains tc.component_type "vessel" ||
            strContains tc.component_type "tank") &&
            !(valid_vessel_inlets.contains pipe.to_port) then
          ["Vessel " ++ tc.tag ++ " inlet (" ++ pipe.to_port ++
            ") should be from a standard inlet port (top, side, or designated inlet)."]
        else []
      ([], pumpWarnings ++ vesselWarnings, ())
    else ([], [], ())
  | _, _ => ([], [], ())

/-- `PnIDValidator.validate_flow_directions`. -/
def validate_flow_directions (pipes : List Pipe) (st : VState) : VState :=
  (runAppend vfd_step pipes st ()).1

/-- The line-label prefix regex `^(\d+)"?-([A-Z]+)-(\d+)` of
`validate_line_sizing` (a prefix match: trailing text is ignored). -/
def parse_line_label (label : String) : Option (String × String × String) :=
  let (size, rest) := takeRun Char.isDigit label.data
  if size.isEmpty then none
  else
    let rest := match rest with
      | '\x22' :: cs => cs
      | cs => cs
    match rest with
    | '-' :: rest2 =>
      let (service, rest3) := takeRun Char.isUpper rest2
      if service.isEmpty then none
      else
        match rest3 with
        | '-' :: rest4 =>
          let (number, _) := takeRun Char.isDigit rest4
          if number.isEmpty then none
          else some (⟨size⟩, ⟨service⟩, ⟨number⟩)
        | _ => none
    | _ => none

/-- One pipe's contribution in `validate_line_sizing`, threading the
`line_sizes` dict (note the source overwrites the stored size, so the
last-seen size becomes the reference). -/
def vls_step (line_sizes : List (String × String)) (pipe : Pipe) :
    List String × List String × List (String × String) :=
  if !(pipe.label = "") then
    match parse_line_label pipe.label with
    | some (size, service, number) =>
      let key := service ++ "-" ++ number
      let sizeWarnings :=
        match dictLookup line_sizes key with
        | some stored =>
          if !(stored = size) then
            ["Inconsistent line sizing for " ++ key ++ ": " ++ size ++
              "\x22 vs " ++ stored ++ "\x22"]
          else []
        | none => []
      ([], sizeWarnings, dictSet line_sizes key size)
    | none => ([], [], line_sizes)
  else ([], [], line_sizes)

/-- `PnIDValidator.validate_line_sizing`. -/
def validate_line_sizing (pipes : List Pipe) (st : VState) : VState :=
  (runAppend vls_step pipes st []).1

/-- One loop's contribution in `validate_control_loops`. -/
def vcl_step (_ : Unit) (loop : ControlLoop) :
    List String × List String × Unit :=
  let primaryErrors :=
    if loop.primary_element = "" then
      ["Control loop " ++ loop.loop_id ++ " missing primary element"]
    else []
  let finalErrors :=
    if loop.final_element = "" then
      ["Control loop " ++ loop.loop_id ++ " missing final control element"]
    else []
  (primaryErrors ++ finalErrors, [], ())

/-- `PnIDValidator.validate_control_loops`: re-instantiates a full
`ControlSystemAnalyzer` (which can raise, hence `Option`) and checks each
inferred loop for missing elements. -/
def validate_control_loops (components : List (String × Component))
    (pipes : List Pipe) (st : VState) : Option VState :=
  (analyze_control_systems components pipes).bind fun r =>
    some (runAppend vcl_step r.1 st ()).1

/-- One vessel's contribution in `validate_safety_systems`. -/
def vss_step (pipes : List Pipe) (_ : Unit) (vessel : Component) :
    List String × List String × Unit :=
  let has_psv := pipes.any (fun pipe =>
    match pipe.from_comp, pipe.to_comp with
    | some fc, some tc =>
      fc.id = vessel.id && (strContains tc.tag "PSV" || strContains tc.tag "PRV")
    | _, _ => false)
  if has_psv then ([], [], ())
  else ([], ["Vessel " ++ vessel.tag ++ " should have pressure relief protection"], ())

/-- `PnIDValidator.validate_safety_systems`. -/
def validate_safety_systems (components : List (String × Component))
    (pipes : List Pipe) (st : VState) : VState :=
  let vessels := (components.map Prod.snd).filter (fun c =>
    strContains c.component_type "vessel" || strContains c.component_type "tank")
  (runAppend (vss_step pipes) vessels st ()).1

/-- `PnIDValidator.__init__`: constructs a throwaway `ControlSystemAnalyzer`
(for its preprocessing side effect), which can raise; the fresh validator
state has empty error and warning lists. -/
def mkValidator (components : List (String × Component)) (pipes : List Pipe) :
    Option VState :=
  (analyze_control_systems components pipes).map (fun _ => ⟨[], []⟩)

/-- `PnIDValidator.validate_all`: run the five checks in order over the
current state and return the accumulated lists together with `is_valid`. -/
def validate_all (components : List (String × Component)) (pipes : List Pipe)
    (st : VState) : Option (VState × VResult) :=
  let st1 := validate_instrument_tags components st
  let st2 := validate_flow_directions pipes st1
  let st3 := validate_line_sizing pipes st2
  (validate_control_loops components pipes st3).bind fun st4 =>
    let st5 := validate_safety_systems components pipes st4
    some (st5, ⟨st5.errors, st5.warnings, st5.errors.isEmpty⟩)

/-! ## Connection ports (`ProfessionalPnidComponent`) -/

/-- `ProfessionalPnidComponent._define_professional_ports`: the type-specific
port table, an insertion-ordered dict from port name to local offset
`(dx, dy)`. -/
def define_professional_ports (c : Component) : List (String × (ℚ × ℚ)) :=
  if c.is_instrument then
    [("center", (c.width / 2, c.height / 2)),
     ("top", (c.width / 2, 0)),
     ("bottom", (c.width / 2, c.height)),
     ("left", (0, c.height / 2)),
     ("right", (c.width, c.height / 2)),
     ("default", (c.width / 2, c.height / 2))]
  else if strContains c.component_type "pump" then
    [("suction", (0, c.height * (6 / 10))),
     ("discharge", (c.width * (5 / 10), 0)),
     ("drain", (c.width * (2 / 10), c.height)),
     ("vent", (c.width * (8 / 10), 0)),
     ("seal_flush", (c.width, c.height * (3 / 10))),
     ("default", (0, c.height * (6 / 10)))]
  else if strContains c.component_type "valve" then
    [("inlet", (0, c.height / 2)),
     ("outlet", (c.width, c.height / 2)),
     ("stem", (c.width / 2, 0)),
     ("body_drain", (c.width / 2, c.height)),
     ("default", (0, c.height / 2))]
  else if strContains c.component_type "vessel" ||
      strContains c.component_type "tank" then
    [("top", (c.width / 2, 0)),
     ("bottom", (c.width / 2, c.height)),
     ("inlet", (0, c.height * (3 / 10))),
     ("outlet", (c.width, c.height * (7 / 10))),
     ("drain", (c.width * (3 / 10), c.height)),
     ("vent", (c.width * (7 / 10), 0)),
     ("level_tap_high", (0, c.height * (2 / 10))),
     ("level_tap_low", (0, c.height * (8 / 10))),
     ("default", (c.width / 2, c.height / 2))]
  else if strContains c.component_type "filter" then
    [("inlet", (c.width / 2, 0)),
     ("outlet", (c.width / 2, c.height)),
     ("drain", (c.width * (2 / 10), c.height * (9 / 10))),
     ("vent", (c.width * (8 / 10), c.height * (1 / 10))),
     ("dp_high", (0, c.height * (3 / 10))),
     ("dp_low", (0, c.height * (7 / 10))),
     ("default", (c.width / 2, 0))]
  else
    [("inlet", (0, c.height / 2)),
     ("outlet", (c.width, c.height / 2)),
     ("top", (c.width / 2, 0)),
     ("bottom", (c.width / 2, c.height)),
     ("default", (c.width / 2, c.height / 2))]

/-- `ProfessionalPnidComponent.get_port_coords`.  The source rotates the port
offset with `math.cos/math.sin` of `math.radians(rotation)`; those
transcendental float functions are abstracted as parameters `cosF`/`sinF`
taking the rotation in degrees, so everything proved here holds for every
choice of them. -/
def get_port_coords (cosF sinF : ℚ → ℚ) (c : Component) (port_name : String) :
    ℚ × ℚ :=
  let ports := define_professional_ports c
  let port :=
    match dictLookup ports port_name with
    | some p => some p
    | none => dictLookup ports "default"
  match port with
  | some p =>
    if c.rotation ≠ 0 then
      let cx := c.width / 2
      let cy := c.height / 2
      let dx := p.1 - cx
      let dy := p.2 - cy
      let new_dx := dx * cosF c.rotation - dy * sinF c.rotation + cx
      let new_dy := dx * sinF c.rotation + dy * cosF c.rotation + cy
      (c.x + new_dx, c.y + new_dy)
    else
      (c.x + p.1, c.y + p.2)
  | none => (c.x + c.width / 2, c.y + c.height / 2)

/-- C10: every port table contains a `"default"` entry (all six branches of
`_define_professional_ports` end with one), and `get_port_coords` — a total
function — answers a lookup of an absent port name with the coordinates of
the component's `default` port, for every rotation model `cosF`/`sinF`. -/
theorem C10_port_lookup_total (cosF sinF : ℚ → ℚ) :
    (∀ c : Component,
      dictLookup (define_professional_ports c) "default" ≠ none) ∧
    (∀ (c : Component) (port_name : String),
      dictLookup (define_professional_ports c) port_name = none →
      get_port_coords cosF sinF c port_name =
        get_port_coords cosF sinF c "default") := by
  have hdef : ∀ c : Component,
      dictLookup (define_professional_ports c) "default" ≠ none := by
    intro c
    unfold define_professional_ports
    split
    · simp [dictLookup]
    · split
      · simp [dictLookup]
      · split
        · simp [dictLookup]
        · split
          · simp [dictLookup]
          · split <;> simp [dictLookup]
  refine ⟨hdef, ?_⟩
  intro c port_name h
  simp only [get_port_coords]
  rw [h]
  cases hd : dictLookup (define_professional_ports c) "default" with
  | none => exact absurd hd (hdef c)
  | some d => rfl

/-- Witness for C10, on a concrete pump component and an absent port name,
with a concrete rotation model. -/
theorem C10_port_lookup_total_witness :
    dictLookup
        (define_professional_ports (⟨"P-001", "P-001", "pump_centrifugal",
          100, 200, 60, 60, 0⟩ : Component)) "default" ≠ none ∧
    get_port_coords (fun _ => 1) (fun _ => 0)
        ⟨"P-001", "P-001", "pump_centrifugal", 100, 200, 60, 60, 0⟩
        "no_such_port" =
      get_port_coords (fun _ => 1) (fun _ => 0)
        ⟨"P-001", "P-001", "pump_centrifugal", 100, 200, 60, 60, 0⟩
        "default" :=
  ⟨(C10_port_lookup_total (fun _ => 1) (fun _ => 0)).1 _,
   (C10_port_lookup_total (fun _ => 1) (fun _ => 0)).2 _ _ (by decide)⟩

/-! ## Pipe routing (`PipeRouter`)

World coordinates are rationals (the floats the source manipulates here are
halves and grid multiples, all exact).  A* costs are stored in half-units so
they are naturals: the source's float costs `1.0` / `1.5` and the `0.5` turn
penalty become `2` / `3` / `1`, and the Manhattan heuristic is doubled;
every cost the source compares is a multiple of `0.5` (exactly representable
as a float), so all comparisons agree.  The `heapq` operations are CPython's,
with the shift-then-place loops of `_siftdown`/`_siftup` rendered as
equivalent swap chains (same reads, same final array). -/

abbrev Point := ℚ × ℚ
abbrev Cell := ℤ × ℤ

/-- Python `int()` truncation toward zero of a rational (used by the grid
quantisation `int(x / grid_size)`). -/
def pyTrunc (q : ℚ) : ℤ := q.num.tdiv (q.den : ℤ)

/-- The router state: `grid_size`, drawing `width`/`height`, plus the cell
sets built by `add_component_obstacle` / `add_pipe_path` (only membership is
ever consulted). -/
structure PipeRouter where
  grid_size : ℕ
  width : ℕ
  height : ℕ
  obstacles : List Cell
  pipes_grid : List Cell

/-- A `PipeRouter()` with the default constructor arguments and no recorded
obstacles or pipes. -/
def default_router : PipeRouter := ⟨10, 2000, 1500, [], []⟩

/-- `GridNode`: the chain of parent links is kept as the cell path from the
current cell (head) back to the start cell (last); `g` is the cost from the
start and `f = g + h`, both in half-units. -/
structure GridNode where
  path : List Cell
  g : ℕ
  f : ℕ
  deriving DecidableEq, Inhabited

/-- The node's own cell (`node.x`, `node.y`). -/
def nodeCell (n : GridNode) : Cell := n.path.headD (0, 0)

/-! ### CPython `heapq` on a list, ordered by `GridNode.__lt__` (`f < f`) -/

/-- Swap two positions of the heap array. -/
def hswap (l : List GridNode) (i j : ℕ) : List GridNode :=
  let a := l.getD i default
  let b := l.getD j default
  (l.set i b).set j a

lemma hswap_length (l : List GridNode) (i j : ℕ) :
    (hswap l i j).length = l.length := by
  simp [hswap]

/-- The loop of CPython `heapq._siftdown(heap, startpos, pos)`: bubble the
item at `pos` up toward `startpos` while it is strictly smaller than its
parent.  The fuel only makes the recursion structural (so the kernel can
evaluate it): each iteration strictly decreases `pos`, so the initial fuel
`pos` of `siftdown` is never exhausted. -/
def siftdownGo : ℕ → List GridNode → ℕ → ℕ → List GridNode
  | fuel, heap, startpos, pos =>
    if startpos < pos then
      let parentpos := (pos - 1) / 2
      if (heap.getD pos default).f < (heap.getD parentpos default).f then
        match fuel with
        | 0 => heap
        | fuel + 1 => siftdownGo fuel (hswap heap pos parentpos) startpos parentpos
      else heap
    else heap

/-- CPython `heapq._siftdown(heap, startpos, pos)`. -/
def siftdown (heap : List GridNode) (startpos pos : ℕ) : List GridNode :=
  siftdownGo pos heap startpos pos

/-- The descent loop of CPython `heapq._siftup(heap, pos)`: walk down to a
leaf, always promoting the smaller child (the right child on ties), then
bubble the item back up with `_siftdown`.  `pos` strictly increases while
staying below `heap.length`, so the initial fuel `heap.length` of `siftup`
is never exhausted. -/
def siftupGo : ℕ → List GridNode → ℕ → ℕ → List GridNode
  | fuel, heap, startpos, pos =>
    if 2 * pos + 1 < heap.length then
      let childpos := 2 * pos + 1
      let rightpos := childpos + 1
      let c :=
        if rightpos < heap.length &&
            !((heap.getD childpos default).f < (heap.getD rightpos default).f)
        then rightpos else childpos
      match fuel with
      | 0 => heap
      | fuel + 1 => siftupGo fuel (hswap heap pos c) startpos c
    else siftdown heap startpos pos

/-- CPython `heapq._siftup(heap, pos)`. -/
def siftup (heap : List GridNode) (pos : ℕ) : List GridNode :=
  siftupGo heap.length heap pos pos

/-- CPython `heapq.heappush`. -/
def heappush (heap : List GridNode) (item : GridNode) : List GridNode :=
  siftdown (heap ++ [item]) 0 heap.length

/-- CPython `heapq.heappop`: pop the last element; if the heap is still
non-empty, return the old root and sift the last element down from the
root. -/
def heappop : List GridNode → Option (GridNode × List GridNode)
  | [] => none
  | x :: xs =>
    let lastelt := (x :: xs).getLastD default
    let rest := (x :: xs).dropLast
    if rest.isEmpty then some (lastelt, [])
    else some (rest.headD default, siftup (rest.set 0 lastelt) 0)

/-! ### A* -/

/-- `PipeRouter._heuristic` (doubled Manhattan distance, see the cost
scaling). -/
def heuristic (a b : Cell) : ℕ :=
  2 * ((a.1 - b.1).natAbs + (a.2 - b.2).natAbs)

/-- `PipeRouter._get_neighbors`: the in-bounds, non-obstacle 4-neighbours in
N, E, S, W order, with entry cost 3 (half-units) on a pipe-occupied cell and
2 otherwise. -/
def get_neighbors (r : PipeRouter) (cell : Cell) : List (Cell × ℕ) :=
  ([((0 : ℤ), (1 : ℤ)), ((1 : ℤ), (0 : ℤ)), ((0 : ℤ), (-1 : ℤ)),
    ((-1 : ℤ), (0 : ℤ))]).filterMap (fun d =>
    let new_x := cell.1 + d.1
    let new_y := cell.2 + d.2
    if 0 ≤ new_x ∧ new_x < ((r.width / r.grid_size : ℕ) : ℤ) ∧
        0 ≤ new_y ∧ new_y < ((r.height / r.grid_size : ℕ) : ℤ) then
      if (new_x, new_y) ∉ r.obstacles then
        some ((new_x, new_y),
          if (new_x, new_y) ∈ r.pipes_grid then 3 else 2)
      else none
    else none)

/-- The direction-change penalty (half-unit 1 = the source's `0.5`): applies
when `prefer_straight`, the node has a parent, and the step direction
changes. -/
def turn_penalty (prefer_straight : Bool) (path : List Cell) (nxt : Cell) :
    ℕ :=
  if prefer_straight then
    match path with
    | c :: p :: _ =>
      if (c.1 - p.1, c.2 - p.2) ≠ (nxt.1 - c.1, nxt.2 - c.2) then 1 else 0
    | _ => 0
  else 0

/-- The neighbour expansion of one A* iteration: children of `current` at
cells not in the closed set, pushed in neighbour order. -/
def make_children (r : PipeRouter) (end_grid : Cell) (prefer_straight : Bool)
    (current : GridNode) (closed : List Cell) : List GridNode :=
  (get_neighbors r (nodeCell current)).filterMap (fun nc =>
    if nc.1 ∈ closed then none
    else
      let tg := current.g + nc.2 + turn_penalty prefer_straight current.path nc.1
      some ⟨nc.1 :: current.path, tg, tg + heuristic nc.1 end_grid⟩)

/-- The `while open_set:` loop of `find_path`.  `some (some n)` = goal node
popped; `some none` = open set exhausted; `none` = fuel exhausted, which
`astar_loop_total` below shows cannot happen for the fuel
`find_path` supplies — the loop always terminates. -/
def astar_loop (r : PipeRouter) (end_grid : Cell) (prefer_straight : Bool) :
    ℕ → List GridNode → List Cell → Option (Option GridNode)
  | fuel, open_set, closed_set =>
    match heappop open_set with
    | none => some none
    | some (current, rest) =>
      if nodeCell current = end_grid then some (some current)
      else
        match fuel with
        | 0 => none
        | fuel + 1 =>
          let closed2 := nodeCell current :: closed_set
          let children := make_children r end_grid prefer_straight current closed2
          astar_loop r end_grid prefer_straight fuel
            (children.foldl heappush rest) closed2

/-- Grid quantisation of a world point (`int(x / grid_size)`). -/
def to_grid (gs : ℕ) (p : Point) : Cell :=
  (pyTrunc (p.1 / (gs : ℚ)), pyTrunc (p.2 / (gs : ℚ)))

/-- `PipeRouter._are_collinear`: two points joinable by one horizontal or
vertical segment. -/
def are_collinear (p1 p2 : Point) : Bool :=
  decide (p1.1 = p2.1 ∨ p1.2 = p2.2)

/-- The inner look-ahead loop of `_smooth_path`: advance `j` while
`path[i]` and `path[j]` are collinear.  The structural fuel (initially
`path.length`, an upper bound on the iterations since `j` must stay below
`path.length` to advance) exists only so the kernel can evaluate it. -/
def smooth_extendGo (path : List Point) (i : ℕ) : ℕ → ℕ → ℕ
  | 0, j => j
  | fuel + 1, j =>
    if j < path.length ∧
        are_collinear (path.getD i (0, 0)) (path.getD j (0, 0)) then
      smooth_extendGo path i fuel (j + 1)
    else j

def smooth_extend (path : List Point) (i : ℕ) (j : ℕ) : ℕ :=
  smooth_extendGo path i path.length j

/-- The outer loop of `_smooth_path`.  The fuel bounds the number of
iterations; `path.length` suffices on every A* cell path (each iteration
advances `i`), which is the only way the source calls it — on an input where
the look-ahead makes no progress the Python loop would not terminate at
all. -/
def smooth_go (path : List Point) : ℕ → ℕ → List Point → List Point
  | 0, _, acc => acc
  | fuel + 1, i, acc =>
    if i < path.length - 1 then
      let j := smooth_extend path i (i + 1)
      smooth_go path fuel (j - 1) (acc ++ [path.getD (j - 1) (0, 0)])
    else acc

/-- `PipeRouter._smooth_path`. -/
def smooth_path (path : List Point) : List Point :=
  if path.length ≤ 2 then path
  else smooth_go path path.length 0 [path.getD 0 (0, 0)]

/-- `PipeRouter._fallback_path`: the synthetic two-bend path through the
horizontal midpoint. -/
def fallback_path (start end_ : Point) : List Point :=
  let mid_x := (start.1 + end_.1) / 2
  [start, (mid_x, start.2), (mid_x, end_.2), end_]

/-- Binary exponentiation (`powBin fuel b e = b ^ e` whenever `e ≤ fuel`,
see `powBin_eq_pow`), used so the fuel bound below evaluates in
logarithmically many steps. -/
def powBin : ℕ → ℕ → ℕ → ℕ
  | 0, _, _ => 1
  | fuel + 1, b, e =>
    if e = 0 then 1
    else (if e % 2 = 1 then b else 1) * powBin fuel (b * b) (e / 2)

lemma powBin_eq_pow : ∀ (fuel b e : ℕ), e ≤ fuel → powBin fuel b e = b ^ e := by
  intro fuel
  induction fuel with
  | zero =>
    intro b e he
    interval_cases e
    rfl
  | succ fuel ih =>
    intro b e he
    rw [powBin]
    by_cases he0 : e = 0
    · simp [he0]
    · rw [if_neg he0, ih (b * b) (e / 2) (by omega)]
      have hb : b * b = b ^ 2 := by ring
      rw [hb, ← pow_mul]
      have hsplit : (if e % 2 = 1 then b else 1) = b ^ (e % 2) := by
        rcases Nat.mod_two_eq_zero_or_one e with h | h <;> simp [h]
      rw [hsplit, ← pow_add]
      congr 1
      omega

/-- Fuel budget for the A* loop: `5 ^ (number of in-bounds cells + 2)`,
an upper bound on the loop's iteration count (see the termination proof). -/
def bigFuel (r : PipeRouter) : ℕ :=
  let n := (r.width / r.grid_size) * (r.height / r.grid_size) + 2
  powBin n 5 n

/-- The A* search of `find_path`: quantise the endpoints, push the start
node, run the loop. -/
def astar_result (r : PipeRouter) (start end_ : Point)
    (prefer_straight : Bool) : Option (Option GridNode) :=
  let start_grid := to_grid r.grid_size start
  let end_grid := to_grid r.grid_size end_
  let start_node : GridNode := ⟨[start_grid], 0, heuristic start_grid end_grid⟩
  astar_loop r end_grid prefer_straight (bigFuel r) (heappush [] start_node) []

/-- `PipeRouter.find_path`: quantise, run A*, reconstruct (reverse the
parent chain and scale back to world coordinates), smooth, then overwrite
the first and last entries with the exact requested endpoints; on an
exhausted open set return the fallback path. -/
def find_path (r : PipeRouter) (start end_ : Point)
    (prefer_straight : Bool := true) : List Point :=
  match astar_result r start end_ prefer_straight with
  | some (some n) =>
    let path := n.path.reverse.map
      (fun c => (((c.1 : ℚ) * (r.grid_size : ℚ), (c.2 : ℚ) * (r.grid_size : ℚ)) : Point))
    let path := if prefer_straight then smooth_path path else path
    let path := path.set 0 start
    path.set (path.length - 1) end_
  | some none => fallback_path start end_
  | none => fallback_path start end_

/-! ## Concrete fixtures -/

/-- A component record with default geometry, as built from a CSV row. -/
def mkComponent (id tag component_type : String) : Component :=
  ⟨id, tag, component_type, 0, 0, 60, 60, 0⟩

/-- An instrumentation signal pipe between two (optionally resolved)
components. -/
def mkSignalPipe (f t : Option Component) : Pipe :=
  ⟨"", "", "instrumentation", f, t, "default", "default"⟩

def fic101 : Component := mkComponent "FIC-101" "FIC-101" "instrument"
def ft101 : Component := mkComponent "FT-101" "FT-101" "instrument"
def fcv101 : Component := mkComponent "FCV-101" "FCV-101" "control_valve"

/-- The C1 scenario: controller, transmitter and valve, with signal lines
from the controller to each of the other two. -/
def c1_components : List (String × Component) :=
  [("FIC-101", fic101), ("FT-101", ft101), ("FCV-101", fcv101)]

def c1_pipes : List Pipe :=
  [mkSignalPipe (some fic101) (some ft101),
   mkSignalPipe (some fic101) (some fcv101)]

/-- The single control loop the C1 scenario should produce. -/
def c1_loop : ControlLoop :=
  { loop_id := "FC-101"
    loop_type := .FLOW
    primary_element := "FT-101"
    controller := "FIC-101"
    final_element := "FCV-101"
    setpoint_source := none
    components := ["FT-101", "FIC-101", "FCV-101"] }

/-! ## C1: loop inference on the FIC/FT/FCV-101 scenario -/

/-- C1: on a component set holding controller FIC-101, transmitter FT-101 and
valve FCV-101, with instrumentation lines from the controller to the
transmitter and to the valve, the analysis emits exactly one control loop,
with `loop_id = "FC-101"`, `loop_type = Flow`, primary element FT-101,
controller FIC-101 and final element FCV-101 (and no interlocks). -/
theorem C1_loop_inference :
    analyze_control_systems c1_components c1_pipes = some ([c1_loop], []) := by
  decide

/-! ## C7: unresolved pipe endpoints abort the analysis -/

/-- The C7 scenario: a single controller and one instrumentation pipe whose
`to_component` did not resolve (`component_map.get` returned `None`). -/
def c7_components : List (String × Component) := [("FIC-101", fic101)]

def c7_pipes : List Pipe := [mkSignalPipe (some fic101) none]

/-- C7: an instrumentation pipe whose `from_comp` resolves to the queried
controller but whose `to_comp` is unresolved makes
`_find_connected_instruments` dereference `None.id`; the control-system
analysis aborts (`AttributeError`), and so does construction of a
`PnIDValidator` over the same data, instead of degrading to partial
output. -/
theorem C7_analysis_aborts :
    analyze_control_systems c7_components c7_pipes = none ∧
      mkValidator c7_components c7_pipes = none := by
  decide

/-! ## C8: completeness of emitted loops -/

/-- The C8 counterexample scenario: a component whose `id` is the empty
string but whose tag parses as a controller, signal-connected to a matching
transmitter and to a valve-flagged instrument. -/
def emptyIdController : Component := mkComponent "" "FIC-101" "instrument"

def fv101 : Component := mkComponent "FV-101" "FV-101" "instrument"

def c8_components : List (String × Component) :=
  [("", emptyIdController), ("FT-101", ft101), ("FV-101", fv101)]

def c8_pipes : List Pipe :=
  [mkSignalPipe (some emptyIdController) (some ft101),
   mkSignalPipe (some emptyIdController) (some fv101)]

/-- C8 counterexample: the emission guard `if transmitter_id and
final_element_id` never tests the controller id, so a component with an
empty `id` and a controller-class tag yields an emitted `ControlLoop` whose
`controller` field is the empty string — the claim's "non-empty …
controller" part fails. -/
theorem C8_counterexample :
    (analyze_control_systems c8_components c8_pipes).map
        (fun r => r.1.map ControlLoop.controller) = some [""] := by
  decide

lemma truthyOptStr_getD_ne {o : Option String} (h : truthyOptStr o = true) :
    o.getD "" ≠ "" := by
  cases o with
  | none => simp [truthyOptStr] at h
  | some s =>
    simp only [truthyOptStr, Bool.not_eq_true'] at h
    simpa [Option.getD] using of_decide_eq_false h

/-- Emitted loops always have truthy primary and final elements. -/
lemma loop_step_sound {components transmitters control_valves pipes acc entry
    acc2} (hstep : loop_step components transmitters control_valves pipes acc
      entry = some acc2)
    (hacc : ∀ l ∈ acc, l.primary_element ≠ "" ∧ l.final_element ≠ "") :
    ∀ l ∈ acc2, l.primary_element ≠ "" ∧ l.final_element ≠ "" := by
  simp only [loop_step] at hstep
  cases hconn : find_connected_instruments pipes entry.1 with
  | none => rw [hconn] at hstep; simp at hstep
  | some connected =>
    rw [hconn] at hstep
    simp only [Option.some_bind] at hstep
    set sel := select_loop_elements components transmitters control_valves
      entry.2.2 connected with hsel
    by_cases htr : (truthyOptStr sel.1 && truthyOptStr sel.2) = true
    · simp only [htr, if_true] at hstep
      obtain ⟨h1, h2⟩ : truthyOptStr sel.1 = true ∧ truthyOptStr sel.2 = true
        := by simpa using htr
      cases hstep
      intro l hl
      rcases List.mem_append.mp hl with h | h
      · exact hacc l h
      · rcases List.mem_singleton.mp h with rfl
        exact ⟨truthyOptStr_getD_ne h1, truthyOptStr_getD_ne h2⟩
    · simp only [htr, if_false] at hstep
      cases hstep
      exact hacc

lemma loop_fold_sound {components transmitters control_valves pipes} :
    ∀ (ctrls : List (String × Component × TagInfo)) (acc loops :
      List ControlLoop),
    (∀ l ∈ acc, l.primary_element ≠ "" ∧ l.final_element ≠ "") →
    ctrls.foldlM (loop_step components transmitters control_valves pipes) acc
      = some loops →
    ∀ l ∈ loops, l.primary_element ≠ "" ∧ l.final_element ≠ "" := by
  intro ctrls
  induction ctrls with
  | nil =>
    intro acc loops hacc h
    simp only [List.foldlM_nil] at h
    cases h
    exact hacc
  | cons c cs ih =>
    intro acc loops hacc h
    rw [List.foldlM_cons] at h
    cases hstep : loop_step components transmitters control_valves pipes acc c
      with
    | none => rw [hstep] at h; simp at h
    | some acc2 =>
      rw [hstep] at h
      simp only [Option.bind_eq_bind, Option.some_bind] at h
      exact ih acc2 loops (loop_step_sound hstep hacc) h

/-- The loop-completeness check is the identity on the validator state when
every loop has both elements present. -/
lemma runAppend_vcl_id :
    ∀ (ls : List ControlLoop) (st : VState),
    (∀ l ∈ ls, l.primary_element ≠ "" ∧ l.final_element ≠ "") →
    (runAppend vcl_step ls st ()).1 = st := by
  intro ls
  induction ls with
  | nil => intro st _; rfl
  | cons l ls ih =>
    intro st hcomplete
    have hl := hcomplete l (by simp)
    have hrest : ∀ x ∈ ls, x.primary_element ≠ "" ∧ x.final_element ≠ "" :=
      fun x hx => hcomplete x (List.mem_cons_of_mem _ hx)
    have hstep : vcl_step () l = ([], [], ()) := by
      simp [vcl_step, hl.1, hl.2]
    show (runAppend vcl_step (l :: ls) st ()).1 = st
    rw [runAppend, List.foldl_cons]
    simp only [appendStep, hstep, List.append_nil]
    have h2 := ih st hrest
    rw [runAppend] at h2
    exact h2

/-- C8 (amended): every `ControlLoop` emitted by the analysis has a
non-empty `primary_element` and a non-empty `final_element` (the emission
guard tests their Python truthiness); the `controller` field is not tested
by that guard and can be empty (see the counterexample).  Consequently the
validator's loop-completeness check never appends an error or warning: it
returns its input state unchanged. -/
theorem C8_emitted_loops_complete
    (components : List (String × Component)) (pipes : List Pipe) :
    (∀ loops interlocks,
      analyze_control_systems components pipes = some (loops, interlocks) →
      ∀ l ∈ loops, l.primary_element ≠ "" ∧ l.final_element ≠ "") ∧
    (∀ st st', validate_control_loops components pipes st = some st' →
      st' = st) := by
  have hloops : ∀ loops interlocks,
      analyze_control_systems components pipes = some (loops, interlocks) →
      ∀ l ∈ loops, l.primary_element ≠ "" ∧ l.final_element ≠ "" := by
    intro loops interlocks h
    simp only [analyze_control_systems] at h
    cases hfold : (classify_instruments components).1.foldlM
        (loop_step components (classify_instruments components).2.1
          (classify_instruments components).2.2.1 pipes) [] with
    | none => rw [hfold] at h; simp at h
    | some loops0 =>
      rw [hfold] at h
      simp only [Option.some_bind] at h
      cases hfold2 : (classify_instruments components).2.2.2.foldlM
          (interlock_step components pipes) [] with
      | none => rw [hfold2] at h; simp at h
      | some inter0 =>
        rw [hfold2] at h
        simp only [Option.some_bind, Option.some.injEq, Prod.mk.injEq] at h
        obtain ⟨rfl, -⟩ := h
        exact loop_fold_sound _ [] loops0 (by simp) hfold
  refine ⟨hloops, ?_⟩
  intro st st' h
  unfold validate_control_loops at h
  cases han : analyze_control_systems components pipes with
  | none => rw [han] at h; simp at h
  | some r =>
    rw [han] at h
    simp only [Option.some_bind, Option.some.injEq] at h
    subst h
    exact runAppend_vcl_id r.1 st (hloops r.1 r.2 (by rw [han]))

/-! ## C2: re-running `validate_all` -/

/-- Prepending previously accumulated messages to a validator state. -/
def stAppend (e w : List String) (s : VState) : VState :=
  ⟨e ++ s.errors, w ++ s.warnings⟩

lemma appendStep_stAppend {α σ : Type}
    (step : σ → α → List String × List String × σ) (e w : List String)
    (st : VState) (aux : σ) (x : α) :
    appendStep step (stAppend e w st, aux) x =
      (stAppend e w (appendStep step (st, aux) x).1,
       (appendStep step (st, aux) x).2) := by
  simp [appendStep, stAppend, List.append_assoc]

lemma foldl_appendStep_stAppend {α σ : Type}
    (step : σ → α → List String × List String × σ) (xs : List α) :
    ∀ (e w : List String) (st : VState) (aux : σ),
    xs.foldl (appendStep step) (stAppend e w st, aux) =
      (stAppend e w (xs.foldl (appendStep step) (st, aux)).1,
       (xs.foldl (appendStep step) (st, aux)).2) := by
  induction xs with
  | nil => intro e w st aux; rfl
  | cons x xs ih =>
    intro e w st aux
    rw [List.foldl_cons, List.foldl_cons, appendStep_stAppend]
    exact ih e w (appendStep step (st, aux) x).1 (appendStep step (st, aux) x).2

/-- Every check built on `runAppend` only appends messages after the
incoming state. -/
lemma runAppend_fst_stAppend {α σ : Type}
    (step : σ → α → List String × List String × σ) (xs : List α)
    (e w : List String) (st : VState) (aux : σ) :
    (runAppend step xs (stAppend e w st) aux).1 =
      stAppend e w (runAppend step xs st aux).1 := by
  rw [runAppend, runAppend, foldl_appendStep_stAppend]

lemma validate_instrument_tags_stAppend (components : List (String × Component))
    (e w : List String) (st : VState) :
    validate_instrument_tags components (stAppend e w st) =
      stAppend e w (validate_instrument_tags components st) :=
  runAppend_fst_stAppend _ _ _ _ _ _

lemma validate_flow_directions_stAppend (pipes : List Pipe)
    (e w : List String) (st : VState) :
    validate_flow_directions pipes (stAppend e w st) =
      stAppend e w (validate_flow_directions pipes st) :=
  runAppend_fst_stAppend _ _ _ _ _ _

lemma validate_line_sizing_stAppend (pipes : List Pipe)
    (e w : List String) (st : VState) :
    validate_line_sizing pipes (stAppend e w st) =
      stAppend e w (validate_line_sizing pipes st) :=
  runAppend_fst_stAppend _ _ _ _ _ _

lemma validate_safety_systems_stAppend (components : List (String × Component))
    (pipes : List Pipe) (e w : List String) (st : VState) :
    validate_safety_systems components pipes (stAppend e w st) =
      stAppend e w (validate_safety_systems components pipes st) :=
  runAppend_fst_stAppend _ _ _ _ _ _

lemma validate_control_loops_stAppend (components : List (String × Component))
    (pipes : List Pipe) (e w : List String) (st : VState) :
    validate_control_loops components pipes (stAppend e w st) =
      (validate_control_loops components pipes st).map (stAppend e w) := by
  unfold validate_control_loops
  cases analyze_control_systems components pipes with
  | none => rfl
  | some r =>
    simp only [Option.some_bind, Option.map_some']
    rw [runAppend_fst_stAppend]

/-- `validate_all` only appends: its result over a state holding previous
messages is the fresh-state result with those messages prepended. -/
lemma validate_all_stAppend (components : List (String × Component))
    (pipes : List Pipe) (e w : List String) (st : VState) :
    validate_all components pipes (stAppend e w st) =
      (validate_all components pipes st).map (fun p =>
        (stAppend e w p.1,
         ⟨(stAppend e w p.1).errors, (stAppend e w p.1).warnings,
          (stAppend e w p.1).errors.isEmpty⟩)) := by
  simp only [validate_all]
  rw [validate_instrument_tags_stAppend, validate_flow_directions_stAppend,
    validate_line_sizing_stAppend, validate_control_loops_stAppend]
  cases validate_control_loops components pipes
      (validate_line_sizing pipes
        (validate_flow_directions pipes
          (validate_instrument_tags components st))) with
  | none => rfl
  | some st4 =>
    simp only [Option.map_some', Option.some_bind]
    rw [validate_safety_systems_stAppend]

lemma validate_all_result (components : List (String × Component))
    (pipes : List Pipe) (st s : VState) (r : VResult)
    (h : validate_all components pipes st = some (s, r)) :
    r.errors = s.errors ∧ r.warnings = s.warnings ∧
      r.is_valid = s.errors.isEmpty := by
  simp only [validate_all] at h
  cases hvc : validate_control_loops components pipes
      (validate_line_sizing pipes
        (validate_flow_directions pipes
          (validate_instrument_tags components st))) with
  | none => rw [hvc] at h; simp at h
  | some st4 =>
    rw [hvc] at h
    simp only [Option.some_bind, Option.some.injEq, Prod.mk.injEq] at h
    obtain ⟨rfl, rfl⟩ := h
    exact ⟨rfl, rfl, rfl⟩

/-- C2 (amended): re-running `validate_all` on the same validator does not
reproduce the first result: the lists are not reset between runs, so the
second call returns the first call's error and warning lists with every
message appended a second time; the two calls agree exactly when the first
call produced empty lists. -/
theorem C2_second_run_duplicates (components : List (String × Component))
    (pipes : List Pipe) (s1 s2 : VState) (r1 r2 : VResult)
    (h1 : validate_all components pipes ⟨[], []⟩ = some (s1, r1))
    (h2 : validate_all components pipes s1 = some (s2, r2)) :
    r2.errors = r1.errors ++ r1.errors ∧
    r2.warnings = r1.warnings ++ r1.warnings ∧
    (r2 = r1 ↔ (r1.errors = [] ∧ r1.warnings = [])) := by
  obtain ⟨he1, hw1, hv1⟩ := validate_all_result _ _ _ _ _ h1
  have hs1 : stAppend s1.errors s1.warnings ⟨[], []⟩ = s1 := by
    simp [stAppend]
  rw [← hs1, validate_all_stAppend, h1] at h2
  simp only [Option.map_some', Option.some.injEq, Prod.mk.injEq] at h2
  obtain ⟨hs2, hr2⟩ := h2
  have he2 : r2.errors = s1.errors ++ s1.errors := by rw [← hr2]; rfl
  have hw2 : r2.warnings = s1.warnings ++ s1.warnings := by rw [← hr2]; rfl
  have hv2 : r2.is_valid = (s1.errors ++ s1.errors).isEmpty := by
    rw [← hr2]; rfl
  rw [← he1] at he2 hv2
  rw [← hw1] at hw2
  rw [← he1] at hv1
  refine ⟨he2, hw2, ?_, ?_⟩
  · intro hr
    rw [hr] at he2 hw2
    have hle := congrArg List.length he2
    have hlw := congrArg List.length hw2
    rw [List.length_append] at hle hlw
    exact ⟨List.eq_nil_of_length_eq_zero (by omega),
           List.eq_nil_of_length_eq_zero (by omega)⟩
  · rintro ⟨hne, hnw⟩
    rw [hne] at he2 hv2 hv1
    rw [hnw] at hw2
    cases r2 with
    | mk e2 w2 v2 =>
      cases r1 with
      | mk e1 w1 v1 =>
        simp only at he2 hw2 hv2 hv1 hne hnw
        simp only [List.append_nil] at he2 hw2 hv2
        subst he2 hw2 hv2 hv1 hne hnw
        rfl

/-- The C2 counterexample scenario: a lone vessel with no relief valve. -/
def v101 : Component := mkComponent "V-101" "V-101" "vessel"

def c2_components : List (String × Component) := [("V-101", v101)]

def c2_warning : String := "Vessel V-101 should have pressure relief protection"

/-- C2 counterexample: on the vessel-without-relief scenario the first
`validate_all` returns one warning, and the second call on the same
(unreset) validator returns that warning twice — not an identical list. -/
theorem C2_counterexample :
    validate_all c2_components [] ⟨[], []⟩ =
      some (⟨[], [c2_warning]⟩, ⟨[], [c2_warning], true⟩) ∧
    validate_all c2_components [] ⟨[], [c2_warning]⟩ =
      some (⟨[], [c2_warning, c2_warning]⟩,
            ⟨[], [c2_warning, c2_warning], true⟩) ∧
    ([c2_warning, c2_warning] ≠ [c2_warning]) := by
  decide

/-- Witness for C2 (amended), instantiated on the vessel scenario. -/
theorem C2_second_run_duplicates_witness :
    (⟨[], [c2_warning, c2_warning], true⟩ : VResult).errors =
      (⟨[], [c2_warning], true⟩ : VResult).errors ++
        (⟨[], [c2_warning], true⟩ : VResult).errors ∧
    (⟨[], [c2_warning, c2_warning], true⟩ : VResult).warnings =
      (⟨[], [c2_warning], true⟩ : VResult).warnings ++
        (⟨[], [c2_warning], true⟩ : VResult).warnings ∧
    ((⟨[], [c2_warning, c2_warning], true⟩ : VResult) =
        ⟨[], [c2_warning], true⟩ ↔
      ((⟨[], [c2_warning], true⟩ : VResult).errors = [] ∧
       (⟨[], [c2_warning], true⟩ : VResult).warnings = [])) :=
  C2_second_run_duplicates c2_components [] ⟨[], [c2_warning]⟩
    ⟨[], [c2_warning, c2_warning]⟩ ⟨[], [c2_warning], true⟩
    ⟨[], [c2_warning, c2_warning], true⟩ (by decide) (by decide)

/-- Witness for C8: the amended statement applied to the C1 scenario's loop
and to the loop-completeness check over the same scenario. -/
theorem C8_emitted_loops_complete_witness :
    (c1_loop.primary_element ≠ "" ∧ c1_loop.final_element ≠ "") ∧
    (⟨["e"], ["w"]⟩ : VState) = ⟨["e"], ["w"]⟩ :=
  ⟨(C8_emitted_loops_complete c1_components c1_pipes).1 [c1_loop] []
      (by decide) c1_loop (by decide),
   (C8_emitted_loops_complete c1_components c1_pipes).2 ⟨["e"], ["w"]⟩
      ⟨["e"], ["w"]⟩ (by decide)⟩

/-! ## C3: endpoint exactness of `find_path` -/

lemma getLastD_set_last {α : Type} :
    ∀ (l : List α) (b d : α), l ≠ [] →
      (l.set (l.length - 1) b).getLastD d = b := by
  intro l
  induction l with
  | nil => intro b d h; exact absurd rfl h
  | cons x t ih =>
    intro b d _
    cases t with
    | nil => rfl
    | cons y t2 =>
      have hlen : (x :: y :: t2).length - 1 = ((y :: t2).length - 1) + 1 := by
        simp
      rw [hlen, List.set_cons_succ, List.getLastD_cons]
      exact ih b x (by simp)

lemma headD_set_set {α : Type} (l : List α) (a b d : α) (h : 2 ≤ l.length) :
    ((l.set 0 a).set (l.length - 1) b).headD d = a := by
  cases l with
  | nil => simp at h
  | cons x t =>
    cases t with
    | nil => simp at h
    | cons y t2 =>
      have hlen : (x :: y :: t2).length - 1 = ((y :: t2).length - 1) + 1 := by
        simp
      rw [hlen]
      rfl

/-- C3 (amended): whenever the returned path has at least two points —
which covers every fallback case and every A*-success case whose smoothed
path has at least two points — its first point is the exact requested
`start` and its last the exact requested `end`; but when start and end
quantise to the same grid cell, the reconstructed path is the single cell,
and the source's `path[0] = start; path[-1] = end` both hit that one slot,
so the result is the single point `end` (first point ≠ `start` whenever
`start ≠ end`). -/
theorem C3_endpoint_exactness (r : PipeRouter) (start end_ : Point)
    (ps : Bool) :
    (2 ≤ (find_path r start end_ ps).length →
      (find_path r start end_ ps).headD (0, 0) = start ∧
      (find_path r start end_ ps).getLastD (0, 0) = end_) ∧
    (to_grid r.grid_size start = to_grid r.grid_size end_ →
      find_path r start end_ ps = [end_]) := by
  constructor
  · intro h
    revert h
    unfold find_path
    cases hres : astar_result r start end_ ps with
    | none =>
      intro h
      constructor <;> rfl
    | some o =>
      cases o with
      | none =>
        intro h
        constructor <;> rfl
      | some n =>
        simp only
        intro h
        set sm := if ps then
            smooth_path (n.path.reverse.map
              (fun c => (((c.1 : ℚ) * (r.grid_size : ℚ),
                (c.2 : ℚ) * (r.grid_size : ℚ)) : Point)))
          else n.path.reverse.map
              (fun c => (((c.1 : ℚ) * (r.grid_size : ℚ),
                (c.2 : ℚ) * (r.grid_size : ℚ)) : Point)) with hsm
        have hlen : (sm.set 0 start).length = sm.length := by simp
        rw [hlen] at h ⊢
        have h2 : 2 ≤ sm.length := by simpa using h
        constructor
        · exact headD_set_set sm start end_ (0, 0) h2
        · have hne : sm.set 0 start ≠ [] := by
            intro hc
            have hlen0 := congrArg List.length hc
            rw [List.length_set, List.length_nil] at hlen0
            omega
          have := getLastD_set_last (sm.set 0 start) end_ (0, 0) hne
          rw [hlen] at this
          exact this
  · intro h
    unfold find_path astar_result
    rw [astar_loop]
    have hpush : heappush [] ⟨[to_grid r.grid_size start], 0,
        heuristic (to_grid r.grid_size start) (to_grid r.grid_size end_)⟩ =
        [⟨[to_grid r.grid_size start], 0,
          heuristic (to_grid r.grid_size start) (to_grid r.grid_size end_)⟩] :=
      rfl
    rw [hpush]
    have hpop : heappop [(⟨[to_grid r.grid_size start], 0,
        heuristic (to_grid r.grid_size start) (to_grid r.grid_size end_)⟩ :
          GridNode)] =
        some (⟨[to_grid r.grid_size start], 0,
          heuristic (to_grid r.grid_size start) (to_grid r.grid_size end_)⟩,
          []) := rfl
    rw [hpop]
    have hcell : nodeCell ⟨[to_grid r.grid_size start], 0,
        heuristic (to_grid r.grid_size start) (to_grid r.grid_size end_)⟩ =
        to_grid r.grid_size end_ := h
    simp only [hcell, if_pos rfl]
    cases ps <;> rfl

/-- C3 counterexample: with the default router, `start = (0,0)` and
`end = (5,5)` share the grid cell `(0,0)`; the returned path is the single
point `(5,5)`, whose first point is not the requested start. -/
theorem C3_counterexample :
    find_path default_router (0, 0) (5, 5) = [(5, 5)] ∧
    (find_path default_router (0, 0) (5, 5)).headD (0, 0) ≠
      ((0 : ℚ), (0 : ℚ)) := by
  constructor
  · decide!
  · decide!

/-- Witness for C3 (amended): the obstacle-free straight route from
`(0,0)` to `(50,0)` has two points, with exact endpoints, and the same-cell
case at `(0,0)`/`(5,5)` collapses to `[(5,5)]`. -/
theorem C3_endpoint_exactness_witness :
    ((find_path default_router (0, 0) (50, 0)).headD (0, 0) = (0, 0) ∧
     (find_path default_router (0, 0) (50, 0)).getLastD (0, 0) = (50, 0)) ∧
    find_path default_router (0, 0) (5, 5) = [(5, 5)] :=
  ⟨(C3_endpoint_exactness default_router (0, 0) (50, 0) true).1 (by decide!),
   (C3_endpoint_exactness default_router (0, 0) (5, 5) true).2 (by decide!)⟩

/-! ## C4: the fallback path -/

/-- C4: whenever the A* open set is exhausted without reaching the goal
cell, `find_path` returns exactly the 4-point two-segment path through the
horizontal midpoint of start and end. -/
theorem C4_fallback_shape (r : PipeRouter) (start end_ : Point) (ps : Bool)
    (h : astar_result r start end_ ps = some none) :
    find_path r start end_ ps =
      [start, ((start.1 + end_.1) / 2, start.2),
       ((start.1 + end_.1) / 2, end_.2), end_] ∧
    (find_path r start end_ ps).length = 4 := by
  unfold find_path
  rw [h]
  exact ⟨rfl, rfl⟩

/-- The C4 witness scenario: a 5×5-cell grid whose end cell `(4,4)` is
walled off by the obstacle cells `(3,3)`, `(3,4)`, `(4,3)` (its only
in-bounds neighbours), so the open set drains without reaching it. -/
def c4_router : PipeRouter := ⟨10, 50, 50, [(3, 3), (3, 4), (4, 3)], []⟩

/-- Witness for C4: on the enclosed-goal scenario the search is exhausted
and the path is the documented fallback. -/
theorem C4_fallback_shape_witness :
    find_path c4_router (0, 0) (40, 40) =
      [(0, 0), (20, 0), (20, 40), (40, 40)] ∧
    (find_path c4_router (0, 0) (40, 40)).length = 4 := by
  have h := C4_fallback_shape c4_router (0, 0) (40, 40) true (by decide!)
  have h14 : ((((0 : ℚ), (0 : ℚ)) : Point).1 + (((40 : ℚ), (40 : ℚ)) : Point).1) / 2
      = (20 : ℚ) := by decide!
  constructor
  · rw [h.1]
    rw [h14]
  · exact h.2

/-! ## C5: path length on an obstacle-free grid -/

/-- Python `abs` of a rational. -/
def rabs (q : ℚ) : ℚ := if q < 0 then -q else q

/-- Total Manhattan length of a polyline, in world units. -/
def path_manhattan : List Point → ℚ
  | p :: q :: rest => rabs (q.1 - p.1) + rabs (q.2 - p.2) +
      path_manhattan (q :: rest)
  | _ => 0

/-- Manhattan distance between two grid cells, in grid steps. -/
def cell_manhattan (a b : Cell) : ℕ :=
  (a.1 - b.1).natAbs + (a.2 - b.2).natAbs

/-- C5 (amended, spec example): on the default obstacle-free router with
`grid_size = 10`, routing `(0,0) → (100,50)` yields the monotone path
`[(0,0), (100,0), (100,50)]` of total Manhattan length `150` world units =
`15` grid steps, equal to the Manhattan distance between the quantised
cells `(0,0)` and `(10,5)`. -/
theorem C5_example_minimal_length :
    find_path default_router (0, 0) (100, 50) =
      [(0, 0), (100, 0), (100, 50)] ∧
    path_manhattan (find_path default_router (0, 0) (100, 50)) = 150 ∧
    to_grid default_router.grid_size (0, 0) = (0, 0) ∧
    to_grid default_router.grid_size (100, 50) = (10, 5) ∧
    cell_manhattan (0, 0) (10, 5) = 15 ∧
    path_manhattan (find_path default_router (0, 0) (100, 50)) =
      (default_router.grid_size : ℚ) * (cell_manhattan (0, 0) (10, 5) : ℚ) := by
  have hp : find_path default_router (0, 0) (100, 50) =
      [(0, 0), (100, 0), (100, 50)] := by decide!
  rw [hp]
  refine ⟨rfl, by decide!, by decide!, by decide!, by decide!, by decide!⟩

/-- The C5 counterexample scenario: a 5×5-cell obstacle-free grid. -/
def c5_router : PipeRouter := ⟨10, 50, 50, [], []⟩

/-- C5 counterexample: with no obstacle and no pipe cells, an end point
whose quantised cell `(5,0)` lies outside the 5×5 grid is unreachable, so
`find_path` returns the fallback path, whose Manhattan length (58 world
units = 5.8 grid steps) differs from the Manhattan distance of the
quantised cells (5 grid steps): the claimed equality fails. -/
theorem C5_counterexample :
    find_path c5_router (0, 0) (55, 3) =
      [(0, 0), (55 / 2, 0), (55 / 2, 3), (55, 3)] ∧
    path_manhattan (find_path c5_router (0, 0) (55, 3)) = 58 ∧
    to_grid c5_router.grid_size (0, 0) = (0, 0) ∧
    to_grid c5_router.grid_size (55, 3) = (5, 0) ∧
    cell_manhattan (0, 0) (5, 0) = 5 ∧
    path_manhattan (find_path c5_router (0, 0) (55, 3)) ≠
      (c5_router.grid_size : ℚ) * (cell_manhattan (0, 0) (5, 0) : ℚ) := by
  have hp : find_path c5_router (0, 0) (55, 3) =
      [(0, 0), (55 / 2, 0), (55 / 2, 3), (55, 3)] := by decide!
  rw [hp]
  refine ⟨rfl, by decide!, by decide!, by decide!, by decide!, by decide!⟩

/-! ## C6: smoothing preserves turns and yields orthogonal segments

The smoothing input in `find_path` is an A*-reconstructed cell path scaled
to world coordinates: consecutive cells are 4-neighbours and no cell
repeats (every node's parent chain visits distinct cells — each pushed
child's cell is outside the closed set, which contains all its ancestors'
cells).  The theorems below quantify over exactly that class of inputs. -/

/-- Two cells are 4-grid neighbours. -/
def cell_adj (a b : Cell) : Prop :=
  (b.1 - a.1).natAbs + (b.2 - a.2).natAbs = 1

/-- Cell-to-world scaling (`cell × grid_size`, as in the reconstruction). -/
def scale_pt (gs : ℕ) (c : Cell) : Point :=
  (((c.1 : ℚ) * (gs : ℚ)), ((c.2 : ℚ) * (gs : ℚ)))

/-- Step vector between two cells. -/
def cdiff (a b : Cell) : Cell := (b.1 - a.1, b.2 - a.2)

lemma getD_eq_getElem {α : Type} (l : List α) (n : ℕ) (d : α)
    (h : n < l.length) : l.getD n d = l[n] := by
  simp [List.getD_eq_getElem?_getD, List.getElem?_eq_getElem h]

lemma scale_coord_inj {gs : ℕ} (hgs : 0 < gs) {a b : ℤ} :
    (a : ℚ) * (gs : ℚ) = (b : ℚ) * (gs : ℚ) ↔ a = b := by
  constructor
  · intro h
    have hne : ((gs : ℚ)) ≠ 0 := by
      simp only [ne_eq, Nat.cast_eq_zero]
      omega
    have := mul_right_cancel₀ hne h
    exact_mod_cast this
  · intro h; rw [h]

lemma are_collinear_scale {gs : ℕ} (hgs : 0 < gs) (a b : Cell) :
    are_collinear (scale_pt gs a) (scale_pt gs b) = true ↔
      (a.1 = b.1 ∨ a.2 = b.2) := by
  simp only [are_collinear, scale_pt, decide_eq_true_eq]
  rw [scale_coord_inj hgs, scale_coord_inj hgs]

lemma nodup_getD_inj {cells : List Cell} (hnd : cells.Nodup) {a b : ℕ}
    (ha : a < cells.length) (hb : b < cells.length)
    (h : cells.getD a (0, 0) = cells.getD b (0, 0)) : a = b := by
  rw [getD_eq_getElem _ _ _ ha, getD_eq_getElem _ _ _ hb] at h
  exact (hnd.getElem_inj_iff).mp h

lemma chain'_adj_at {cells : List Cell} (hadj : List.Chain' cell_adj cells)
    {k : ℕ} (hk : k + 1 < cells.length) :
    cell_adj (cells.getD k (0, 0)) (cells.getD (k + 1) (0, 0)) := by
  rw [getD_eq_getElem _ _ _ (by omega), getD_eq_getElem _ _ _ hk]
  have := List.chain'_iff_get.mp hadj k (by omega)
  simpa [List.get_eq_getElem] using this

/-- On an adjacent, duplicate-free cell path, a run of cells all sharing a
coordinate with the run's first cell is a straight monotone segment: every
cell of the run is `cells[i] + (m - i) · d` for the first step vector
`d`. -/
lemma run_formula {cells : List Cell} (hadj : List.Chain' cell_adj cells)
    (hnd : cells.Nodup) {i j : ℕ} (hij : i + 1 ≤ j) (hj : j < cells.length)
    (hcoll : ∀ m, i < m → m ≤ j →
      (cells.getD i (0, 0)).1 = (cells.getD m (0, 0)).1 ∨
      (cells.getD i (0, 0)).2 = (cells.getD m (0, 0)).2) :
    ∀ m, i ≤ m → m ≤ j →
      cells.getD m (0, 0) =
        ((cells.getD i (0, 0)).1 + ((m - i : ℕ) : ℤ) *
            (cdiff (cells.getD i (0, 0)) (cells.getD (i + 1) (0, 0))).1,
         (cells.getD i (0, 0)).2 + ((m - i : ℕ) : ℤ) *
            (cdiff (cells.getD i (0, 0)) (cells.getD (i + 1) (0, 0))).2) := by
  set ci := cells.getD i (0, 0) with hci
  set d := cdiff (cells.getD i (0, 0)) (cells.getD (i + 1) (0, 0)) with hd
  have hdnorm : d.1.natAbs + d.2.natAbs = 1 :=
    chain'_adj_at hadj (by omega)
  intro m
  induction m using Nat.strong_induction_on with
  | _ m ih =>
    intro him hmj
    rcases Nat.lt_or_ge m (i + 2) with hm2 | hm2
    · -- base cases m = i and m = i + 1
      rcases Nat.lt_or_ge m (i + 1) with hm1 | hm1
      · obtain rfl : m = i := by omega
        rw [Nat.sub_self]
        simp only [Nat.cast_zero, zero_mul, add_zero]
      · obtain rfl : m = i + 1 := by omega
        have h1 : (i + 1 - i : ℕ) = 1 := by omega
        rw [h1]
        have hd1 : d.1 = (cells.getD (i + 1) (0, 0)).1 - ci.1 := rfl
        have hd2 : d.2 = (cells.getD (i + 1) (0, 0)).2 - ci.2 := rfl
        refine Prod.ext ?_ ?_
        · show (cells.getD (i + 1) (0, 0)).1 = ci.1 + ((1 : ℕ) : ℤ) * d.1
          omega
        · show (cells.getD (i + 1) (0, 0)).2 = ci.2 + ((1 : ℕ) : ℤ) * d.2
          omega
    · -- inductive case m ≥ i + 2
      have hprev := ih (m - 1) (by omega) (by omega) (by omega)
      have hprev2 := ih (m - 2) (by omega) (by omega) (by omega)
      have hadjm : cell_adj (cells.getD (m - 1) (0, 0)) (cells.getD m (0, 0))
        := by
        have := chain'_adj_at hadj (k := m - 1)
          (by omega : m - 1 + 1 < cells.length)
        have heq : m - 1 + 1 = m := by omega
        rwa [heq] at this
      set cm := cells.getD m (0, 0) with hcm
      set cp := cells.getD (m - 1) (0, 0) with hcp
      have henorm : (cm.1 - cp.1).natAbs + (cm.2 - cp.2).natAbs = 1 := hadjm
      have hcollm := hcoll m (by omega) hmj
      rw [← hcm] at hcollm
      have hne2 : cm ≠ cells.getD (m - 2) (0, 0) := by
        intro hcontra
        have := nodup_getD_inj hnd (by omega : m < cells.length)
          (by omega : m - 2 < cells.length) hcontra
        omega
      rw [hprev2] at hne2
      have hne2c : ¬ (cm.1 = ci.1 + ((m - 2 - i : ℕ) : ℤ) * d.1 ∧
          cm.2 = ci.2 + ((m - 2 - i : ℕ) : ℤ) * d.2) := by
        intro hc
        exact hne2 (Prod.ext hc.1 hc.2)
      have hp1 : cp.1 = ci.1 + ((m - 1 - i : ℕ) : ℤ) * d.1 := by rw [hprev]
      have hp2 : cp.2 = ci.2 + ((m - 1 - i : ℕ) : ℤ) * d.2 := by rw [hprev]
      rw [hp1, hp2] at henorm
      have hgoal : cm.1 = ci.1 + ((m - i : ℕ) : ℤ) * d.1 ∧
          cm.2 = ci.2 + ((m - i : ℕ) : ℤ) * d.2 := by
        have hdsplit : (d.1 = 0 ∧ (d.2 = 1 ∨ d.2 = -1)) ∨
            (d.2 = 0 ∧ (d.1 = 1 ∨ d.1 = -1)) := by omega
        rcases hdsplit with ⟨hd1, hd2⟩ | ⟨hd2, hd1⟩
        · rcases hd2 with hd2 | hd2 <;>
            (rw [hd1, hd2] at henorm hne2c ⊢; omega)
        · rcases hd1 with hd1 | hd1 <;>
            (rw [hd1, hd2] at henorm hne2c ⊢; omega)
      exact Prod.ext hgoal.1 hgoal.2

/-- On a straight run the step direction is constant. -/
lemma run_dirs_const {cells : List Cell} (hadj : List.Chain' cell_adj cells)
    (hnd : cells.Nodup) {i j : ℕ} (hij : i + 1 ≤ j) (hj : j < cells.length)
    (hcoll : ∀ m, i < m → m ≤ j →
      (cells.getD i (0, 0)).1 = (cells.getD m (0, 0)).1 ∨
      (cells.getD i (0, 0)).2 = (cells.getD m (0, 0)).2) :
    ∀ k, i ≤ k → k < j →
      cdiff (cells.getD k (0, 0)) (cells.getD (k + 1) (0, 0)) =
        cdiff (cells.getD i (0, 0)) (cells.getD (i + 1) (0, 0)) := by
  intro k hik hkj
  have fk := run_formula hadj hnd hij hj hcoll k hik (by omega)
  have fk1 := run_formula hadj hnd hij hj hcoll (k + 1) (by omega) (by omega)
  have hx : ((k + 1 - i : ℕ) : ℤ) = ((k - i : ℕ) : ℤ) + 1 := by omega
  rw [fk, fk1]
  simp only [cdiff, hx]
  refine Prod.ext ?_ ?_ <;> · show _ = _; ring

/-- Adjacent cells share a coordinate, so their scaled images are
collinear. -/
lemma adj_collinear {gs : ℕ} (hgs : 0 < gs) {a b : Cell}
    (h : cell_adj a b) :
    are_collinear (scale_pt gs a) (scale_pt gs b) = true := by
  rw [are_collinear_scale hgs]
  have : (b.1 - a.1).natAbs + (b.2 - a.2).natAbs = 1 := h
  omega

lemma getD_map_scale (gs : ℕ) (cells : List Cell) (k : ℕ) :
    (cells.map (scale_pt gs)).getD k (0, 0) =
      scale_pt gs (cells.getD k (0, 0)) := by
  rcases Nat.lt_or_ge k cells.length with h | h
  · rw [getD_eq_getElem _ _ _ (by simpa using h), getD_eq_getElem _ _ _ h]
    simp
  · rw [List.getD_eq_getElem?_getD, List.getD_eq_getElem?_getD,
      List.getElem?_eq_none (by simpa using h), List.getElem?_eq_none h]
    show (0, 0) = scale_pt gs (0, 0)
    simp [scale_pt]

/-- Specification of the smoothing look-ahead: the returned index is at
least the starting one, stays within the path (when starting within it),
and every index passed over is collinear with `path[i]`. -/
lemma smooth_extendGo_spec (path : List Point) (i : ℕ) :
    ∀ (fuel j₀ : ℕ),
      j₀ ≤ smooth_extendGo path i fuel j₀ ∧
      (j₀ ≤ path.length → smooth_extendGo path i fuel j₀ ≤ path.length) ∧
      (∀ m, j₀ ≤ m → m < smooth_extendGo path i fuel j₀ →
        are_collinear (path.getD i (0, 0)) (path.getD m (0, 0)) = true) := by
  intro fuel
  induction fuel with
  | zero =>
    intro j₀
    simp only [smooth_extendGo]
    exact ⟨le_refl _, fun h => h, fun m h1 h2 => absurd h2 (by omega)⟩
  | succ fuel ih =>
    intro j₀
    simp only [smooth_extendGo]
    by_cases hc : j₀ < path.length ∧
        are_collinear (path.getD i (0, 0)) (path.getD j₀ (0, 0)) = true
    · rw [if_pos hc]
      obtain ⟨ha, hb, hcol⟩ := ih (j₀ + 1)
      refine ⟨by omega, fun _ => hb hc.1, ?_⟩
      intro m h1 h2
      rcases Nat.eq_or_lt_of_le h1 with rfl | hlt
      · exact hc.2
      · exact hcol m hlt h2
    · rw [if_neg hc]
      exact ⟨le_refl _, fun h => h, fun m h1 h2 => absurd h2 (by omega)⟩

/-- If the first look-ahead test passes, the look-ahead advances. -/
lemma smooth_extendGo_advance (path : List Point) (i fuel j₀ : ℕ)
    (hfuel : 1 ≤ fuel) (hlt : j₀ < path.length)
    (hcol : are_collinear (path.getD i (0, 0)) (path.getD j₀ (0, 0)) = true) :
    j₀ + 1 ≤ smooth_extendGo path i fuel j₀ := by
  obtain ⟨fuel, rfl⟩ : ∃ f, fuel = f + 1 := ⟨fuel - 1, by omega⟩
  simp only [smooth_extendGo]
  rw [if_pos ⟨hlt, hcol⟩]
  exact (smooth_extendGo_spec path i fuel (j₀ + 1)).1

lemma chain'_append_singleton {α : Type} {R : α → α → Prop} {l : List α}
    {x : α} (h : List.Chain' R l)
    (hlast : ∀ y, l.getLast? = some y → R y x) :
    List.Chain' R (l ++ [x]) := by
  rw [List.chain'_append]
  refine ⟨h, List.chain'_singleton x, ?_⟩
  intro y hy z hz
  simp only [List.head?_cons, Option.mem_def, Option.some.injEq] at hz
  subst hz
  exact hlast y hy

/-- Whether the cell path makes a genuine turn at index `k`: the incoming
and outgoing step directions differ. -/
def cell_turn (cells : List Cell) (k : ℕ) : Prop :=
  cdiff (cells.getD (k - 1) (0, 0)) (cells.getD k (0, 0)) ≠
    cdiff (cells.getD k (0, 0)) (cells.getD (k + 1) (0, 0))

instance (a b : Cell) : Decidable (cell_adj a b) :=
  inferInstanceAs (Decidable ((b.1 - a.1).natAbs + (b.2 - a.2).natAbs = 1))

instance (cells : List Cell) (k : ℕ) : Decidable (cell_turn cells k) :=
  inferInstanceAs (Decidable (¬ _ = _))

/-- Invariant-carrying specification of the outer smoothing loop over the
scaled image of an adjacent, duplicate-free cell path. -/
lemma smooth_go_spec {gs : ℕ} (hgs : 0 < gs) {cells : List Cell}
    (hadj : List.Chain' cell_adj cells) (hnd : cells.Nodup) :
    ∀ (fuel i : ℕ) (acc : List Point),
      i < cells.length →
      cells.length - 1 - i ≤ fuel →
      acc.getLast? = some (scale_pt gs (cells.getD i (0, 0))) →
      List.Chain' (fun p q => are_collinear p q = true) acc →
      (∀ k, 0 < k → k + 1 < cells.length → k ≤ i → cell_turn cells k →
        scale_pt gs (cells.getD k (0, 0)) ∈ acc) →
      List.Chain' (fun p q => are_collinear p q = true)
        (smooth_go (cells.map (scale_pt gs)) fuel i acc) ∧
      (∀ k, 0 < k → k + 1 < cells.length → cell_turn cells k →
        scale_pt gs (cells.getD k (0, 0)) ∈
          smooth_go (cells.map (scale_pt gs)) fuel i acc) ∧
      (∀ x ∈ acc, x ∈ smooth_go (cells.map (scale_pt gs)) fuel i acc) := by
  intro fuel
  induction fuel with
  | zero =>
    intro i acc hi hfuel hlast hchain hturn
    simp only [smooth_go]
    refine ⟨hchain, ?_, fun x hx => hx⟩
    intro k hk hk1 ht
    exact hturn k hk hk1 (by omega) ht
  | succ fuel ih =>
    intro i acc hi hfuel hlast hchain hturn
    simp only [smooth_go]
    by_cases hguard : i < (cells.map (scale_pt gs)).length - 1
    · rw [if_pos hguard]
      rw [List.length_map] at hguard
      set path := cells.map (scale_pt gs) with hpath
      have hplen : path.length = cells.length := by
        rw [hpath, List.length_map]
      -- the look-ahead advances at least to i + 2 and stays within the path
      set j := smooth_extend path i (i + 1) with hj
      have hadv : i + 2 ≤ j := by
        rw [hj, smooth_extend]
        have hcol1 : are_collinear (path.getD i (0, 0))
            (path.getD (i + 1) (0, 0)) = true := by
          rw [hpath, getD_map_scale, getD_map_scale]
          exact adj_collinear hgs (chain'_adj_at hadj (by omega))
        have := smooth_extendGo_advance path i path.length (i + 1)
          (by omega) (by omega) hcol1
        omega
      have hjle : j ≤ cells.length := by
        have := (smooth_extendGo_spec path i path.length (i + 1)).2.1
          (by omega)
        rw [hj, smooth_extend]
        omega
      have hcolls : ∀ m, i + 1 ≤ m → m < j →
          are_collinear (path.getD i (0, 0)) (path.getD m (0, 0)) = true := by
        rw [hj, smooth_extend]
        exact (smooth_extendGo_spec path i path.length (i + 1)).2.2
      -- cell-level collinearity over the run [i+1, j-1]
      have hcollc : ∀ m, i < m → m ≤ j - 1 →
          (cells.getD i (0, 0)).1 = (cells.getD m (0, 0)).1 ∨
          (cells.getD i (0, 0)).2 = (cells.getD m (0, 0)).2 := by
        intro m h1 h2
        have := hcolls m (by omega) (by omega)
        rw [hpath, getD_map_scale, getD_map_scale] at this
        exact (are_collinear_scale hgs _ _).mp this
      -- no interior index of the run is a turn
      have hnoturn : ∀ k, i < k → k < j - 1 → ¬ cell_turn cells k := by
        intro k hk1 hk2 ht
        have hdirs := run_dirs_const hadj hnd (i := i) (j := j - 1)
          (by omega) (by omega) hcollc
        have h1 := hdirs k (by omega) (by omega)
        have h2 := hdirs (k - 1) (by omega) (by omega)
        have heq : k - 1 + 1 = k := by omega
        rw [heq] at h2
        exact ht (h2.trans h1.symm)
      -- the appended waypoint is the scaled cell j - 1
      have happ : path.getD (j - 1) (0, 0) =
          scale_pt gs (cells.getD (j - 1) (0, 0)) := by
        rw [hpath, getD_map_scale]
      have hlastnew : (acc ++ [path.getD (j - 1) (0, 0)]).getLast? =
          some (scale_pt gs (cells.getD (j - 1) (0, 0))) := by
        rw [List.getLast?_concat, happ]
      have hchainnew : List.Chain' (fun p q => are_collinear p q = true)
          (acc ++ [path.getD (j - 1) (0, 0)]) := by
        refine chain'_append_singleton hchain ?_
        intro y hy
        rw [hlast] at hy
        cases hy
        have := hcolls (j - 1) (by omega) (by omega)
        rw [hpath, getD_map_scale, getD_map_scale] at this
        rw [happ]
        exact this
      have hturnnew : ∀ k, 0 < k → k + 1 < cells.length → k ≤ j - 1 →
          cell_turn cells k →
          scale_pt gs (cells.getD k (0, 0)) ∈
            (acc ++ [path.getD (j - 1) (0, 0)]) := by
        intro k hk hk1 hkj ht
        rcases Nat.lt_or_ge k (i + 1) with hki | hki
        · exact List.mem_append_left _ (hturn k hk hk1 (by omega) ht)
        · rcases Nat.eq_or_lt_of_le hkj with rfl | hkj2
          · refine List.mem_append_right _ ?_
            rw [happ]
            exact List.mem_singleton.mpr rfl
          · exact absurd ht (hnoturn k (by omega) (by omega))
      have hres := ih (j - 1) (acc ++ [path.getD (j - 1) (0, 0)])
        (by omega) (by omega) hlastnew hchainnew hturnnew
      refine ⟨hres.1, hres.2.1, ?_⟩
      intro x hx
      exact hres.2.2 x (List.mem_append_left _ hx)
    · rw [if_neg hguard]
      rw [List.length_map] at hguard
      refine ⟨hchain, ?_, fun x hx => hx⟩
      intro k hk hk1 ht
      exact hturn k hk hk1 (by omega) ht

/-- C6: on the scaled image of any adjacent, duplicate-free cell path (the
shape of every A*-reconstructed path), `_smooth_path` (a) keeps every
waypoint where the incoming and outgoing directions differ, and (b)
produces an output in which every two consecutive points share an x or a y
coordinate. -/
theorem C6_smoothing_preserves_turns (gs : ℕ) (hgs : 0 < gs)
    (cells : List Cell) (hadj : List.Chain' cell_adj cells)
    (hnd : cells.Nodup) :
    List.Chain' (fun p q => are_collinear p q = true)
      (smooth_path (cells.map (scale_pt gs))) ∧
    (∀ k, 0 < k → k + 1 < cells.length → cell_turn cells k →
      scale_pt gs (cells.getD k (0, 0)) ∈
        smooth_path (cells.map (scale_pt gs))) := by
  rw [smooth_path]
  by_cases hlen : (cells.map (scale_pt gs)).length ≤ 2
  · rw [if_pos hlen]
    rw [List.length_map] at hlen
    constructor
    · -- a path of at most two points: direct from adjacency
      match cells, hadj with
      | [], _ => exact List.chain'_nil
      | [a], _ => exact List.chain'_singleton _
      | a :: b :: rest, hadj =>
        have : rest = [] := by
          cases rest with
          | nil => rfl
          | cons c cs => simp at hlen
        subst this
        refine List.chain'_pair.mpr ?_
        exact adj_collinear hgs (List.chain'_pair.mp hadj)
    · intro k hk hk1 ht
      omega
  · rw [if_neg hlen]
    rw [List.length_map] at hlen
    have h0 : (cells.map (scale_pt gs)).getD 0 (0, 0) =
        scale_pt gs (cells.getD 0 (0, 0)) := getD_map_scale gs cells 0
    have hres := smooth_go_spec hgs hadj hnd
      ((cells.map (scale_pt gs)).length) 0
      [(cells.map (scale_pt gs)).getD 0 (0, 0)]
      (by omega) (by rw [List.length_map]; omega)
      (by rw [List.getLast?_singleton, h0])
      (List.chain'_singleton _)
      (by intro k hk _ hki _; omega)
    exact ⟨hres.1, hres.2.1⟩

/-- Witness for C6: the L-shaped cell path `(0,0) → (1,0) → (1,1)` at
`grid_size = 10` keeps its genuine turn at `(10, 0)` and yields pairwise
orthogonal segments. -/
theorem C6_smoothing_preserves_turns_witness :
    List.Chain' (fun p q => are_collinear p q = true)
      (smooth_path ([((0 : ℤ), (0 : ℤ)), (1, 0), (1, 1)].map (scale_pt 10))) ∧
    scale_pt 10 ([((0 : ℤ), (0 : ℤ)), (1, 0), (1, 1)].getD 1 (0, 0)) ∈
      smooth_path ([((0 : ℤ), (0 : ℤ)), (1, 0), (1, 1)].map (scale_pt 10)) :=
  have hadj3 : List.Chain' cell_adj [((0 : ℤ), (0 : ℤ)), (1, 0), (1, 1)] :=
    List.chain'_cons.mpr ⟨by decide,
      List.chain'_cons.mpr ⟨by decide, List.chain'_singleton _⟩⟩
  ⟨(C6_smoothing_preserves_turns 10 (by decide)
      [((0 : ℤ), (0 : ℤ)), (1, 0), (1, 1)] hadj3 (by decide)).1,
   (C6_smoothing_preserves_turns 10 (by decide)
      [((0 : ℤ), (0 : ℤ)), (1, 0), (1, 1)] hadj3 (by decide)).2
     1 (by decide) (by decide) (by decide)⟩

/-! ## C9: the A* loop always terminates

The `heapq` operations permute the array; each loop iteration pops one node
and pushes at most four children whose paths are one cell longer.  Every
node's path visits pairwise-distinct cells, all but the original start cell
in bounds, so path lengths are bounded by the cell count and the weighted
sum `Σ 5 ^ (cells + 2 - path length)` over the open list strictly
decreases; `bigFuel` bounds it from the start. -/

lemma count_set {α : Type} [DecidableEq α] :
    ∀ (l : List α) (i : ℕ) (a c : α) (h : i < l.length),
      (l.set i a).count c + (if l.get ⟨i, h⟩ = c then 1 else 0) =
        l.count c + (if a = c then 1 else 0) := by
  intro l
  induction l with
  | nil => intro i a c h; simp at h
  | cons x t ih =>
    intro i a c h
    cases i with
    | zero =>
      simp only [List.set_cons_zero, List.get, List.count_cons, beq_iff_eq]
      split_ifs <;> omega
    | succ i =>
      simp only [List.set_cons_succ, List.get, List.count_cons, beq_iff_eq]
      have := ih i a c (by simpa using h)
      split_ifs at this ⊢ <;> omega

lemma count_set_getD {α : Type} [DecidableEq α] (l : List α) (i : ℕ)
    (a c d : α) (h : i < l.length) :
    (l.set i a).count c + (if l.getD i d = c then 1 else 0) =
      l.count c + (if a = c then 1 else 0) := by
  have := count_set l i a c h
  rw [List.get_eq_getElem] at this
  rw [getD_eq_getElem _ _ _ h]
  exact this

lemma hswap_perm (l : List GridNode) (i j : ℕ) (hi : i < l.length)
    (hj : j < l.length) : (hswap l i j).Perm l := by
  rw [List.perm_iff_count]
  intro c
  set b := l.getD j default with hb
  set a := l.getD i default with ha
  have hj2 : j < (l.set i b).length := by
    rw [List.length_set]; exact hj
  have c1 := count_set_getD l i b c default hi
  have c2 := count_set_getD (l.set i b) j a c default hj2
  rw [← ha] at c1
  have hget : (l.set i b).getD j default = if i = j then b else b := by
    rw [getD_eq_getElem _ _ _ hj2, List.getElem_set]
    rcases eq_or_ne i j with rfl | hne
    · rw [if_pos rfl, if_pos rfl]
    · rw [if_neg hne, if_neg hne, ← getD_eq_getElem _ _ default hj]
  have hget2 : (l.set i b).getD j default = b := by
    rw [hget]
    split_ifs <;> rfl
  rw [hget2] at c2
  show ((l.set i b).set j a).count c = l.count c
  split_ifs at c1 c2 <;> omega

lemma siftdownGo_zero (heap : List GridNode) (startpos pos : ℕ) :
    siftdownGo 0 heap startpos pos =
      if startpos < pos then
        if (heap.getD pos default).f < (heap.getD ((pos - 1) / 2) default).f
        then heap else heap
      else heap := rfl

lemma siftdownGo_succ (fuel : ℕ) (heap : List GridNode) (startpos pos : ℕ) :
    siftdownGo (fuel + 1) heap startpos pos =
      if startpos < pos then
        if (heap.getD pos default).f < (heap.getD ((pos - 1) / 2) default).f
        then siftdownGo fuel (hswap heap pos ((pos - 1) / 2)) startpos
          ((pos - 1) / 2)
        else heap
      else heap := rfl

lemma siftdownGo_perm :
    ∀ (fuel : ℕ) (heap : List GridNode) (startpos pos : ℕ),
      pos < heap.length → (siftdownGo fuel heap startpos pos).Perm heap := by
  intro fuel
  induction fuel with
  | zero =>
    intro heap startpos pos hpos
    rw [siftdownGo_zero]
    split_ifs <;> exact List.Perm.refl _
  | succ fuel ih =>
    intro heap startpos pos hpos
    rw [siftdownGo_succ]
    split_ifs with h1 h2
    · have hpp : (pos - 1) / 2 < heap.length := by omega
      have hlen : (hswap heap pos ((pos - 1) / 2)).length = heap.length :=
        hswap_length _ _ _
      exact (ih (hswap heap pos ((pos - 1) / 2)) startpos ((pos - 1) / 2)
        (by omega)).trans (hswap_perm heap pos ((pos - 1) / 2) hpos hpp)
    · exact List.Perm.refl _
    · exact List.Perm.refl _

lemma siftdown_perm (heap : List GridNode) (startpos pos : ℕ)
    (hpos : pos < heap.length) : (siftdown heap startpos pos).Perm heap :=
  siftdownGo_perm pos heap startpos pos hpos

lemma siftupGo_zero (heap : List GridNode) (startpos pos : ℕ) :
    siftupGo 0 heap startpos pos =
      if 2 * pos + 1 < heap.length then heap
      else siftdown heap startpos pos := rfl

lemma siftupGo_succ (fuel : ℕ) (heap : List GridNode) (startpos pos : ℕ) :
    siftupGo (fuel + 1) heap startpos pos =
      if 2 * pos + 1 < heap.length then
        siftupGo fuel
          (hswap heap pos
            (if 2 * pos + 1 + 1 < heap.length &&
                !((heap.getD (2 * pos + 1) default).f <
                  (heap.getD (2 * pos + 1 + 1) default).f)
             then 2 * pos + 1 + 1 else 2 * pos + 1))
          startpos
          (if 2 * pos + 1 + 1 < heap.length &&
              !((heap.getD (2 * pos + 1) default).f <
                (heap.getD (2 * pos + 1 + 1) default).f)
           then 2 * pos + 1 + 1 else 2 * pos + 1)
      else siftdown heap startpos pos := rfl

lemma siftupGo_perm :
    ∀ (fuel : ℕ) (heap : List GridNode) (startpos pos : ℕ),
      pos < heap.length → (siftupGo fuel heap startpos pos).Perm heap := by
  intro fuel
  induction fuel with
  | zero =>
    intro heap startpos pos hpos
    rw [siftupGo_zero]
    split_ifs with h1
    · exact List.Perm.refl _
    · exact siftdown_perm heap startpos pos hpos
  | succ fuel ih =>
    intro heap startpos pos hpos
    rw [siftupGo_succ]
    split_ifs with h1 h2
    · have hcb : 2 * pos + 1 + 1 < heap.length := by
        simp only [Bool.and_eq_true, decide_eq_true_eq] at h2
        exact h2.1
      exact (ih _ startpos _ (by rw [hswap_length]; exact hcb)).trans
        (hswap_perm heap pos _ hpos hcb)
    · exact (ih _ startpos _ (by rw [hswap_length]; exact h1)).trans
        (hswap_perm heap pos _ hpos h1)
    · exact siftdown_perm heap startpos pos hpos

lemma siftup_perm (heap : List GridNode) (pos : ℕ)
    (hpos : pos < heap.length) : (siftup heap pos).Perm heap :=
  siftupGo_perm heap.length heap pos pos hpos

lemma heappush_perm (heap : List GridNode) (item : GridNode) :
    (heappush heap item).Perm (item :: heap) := by
  unfold heappush
  have h1 : heap.length < (heap ++ [item]).length := by simp
  exact (siftdown_perm (heap ++ [item]) 0 heap.length h1).trans
    (List.perm_append_singleton _ _)

lemma heappop_perm {heap : List GridNode} {x : GridNode}
    {rest : List GridNode} (h : heappop heap = some (x, rest)) :
    heap.Perm (x :: rest) := by
  cases heap with
  | nil => simp [heappop] at h
  | cons y ys =>
    cases ys with
    | nil =>
      have hpy : heappop [y] = some (y, []) := rfl
      rw [hpy] at h
      simp only [Option.some.injEq, Prod.mk.injEq] at h
      obtain ⟨rfl, rfl⟩ := h
      exact List.Perm.refl _
    | cons z zs =>
      simp only [heappop] at h
      have hne : ((y :: z :: zs).dropLast).isEmpty = false := by
        simp [List.dropLast_cons₂]
      rw [hne] at h
      simp only [Bool.false_eq_true, if_false, Option.some.injEq,
        Prod.mk.injEq] at h
      obtain ⟨hx, hrest⟩ := h
      set l := y :: z :: zs with hl
      set rest0 := l.dropLast with hrest0
      have hr0ne : rest0 ≠ [] := by
        rw [hrest0, hl]
        simp [List.dropLast_cons₂]
      have hldecomp : rest0 ++ [l.getLastD default] = l := by
        rw [hrest0]
        have : l.getLastD default = l.getLast (by rw [hl]; simp) := by
          rw [List.getLastD_eq_getLast?, List.getLast?_eq_getLast _ (by rw [hl]; simp)]
          rfl
        rw [this]
        exact List.dropLast_append_getLast _
      obtain ⟨h0, t0, ht0⟩ : ∃ h0 t0, rest0 = h0 :: t0 := by
        cases hr : rest0 with
        | nil => exact absurd hr hr0ne
        | cons a b => exact ⟨a, b, rfl⟩
      have hxa : x = h0 := by
        rw [← hx, ht0]
        rfl
      have hrperm : rest.Perm (l.getLastD default :: t0) := by
        rw [← hrest]
        have hset : rest0.set 0 (l.getLastD default) =
            l.getLastD default :: t0 := by
          rw [ht0]
          rfl
        have hlen0 : 0 < (rest0.set 0 (l.getLastD default)).length := by
          rw [hset]
          simp
        exact (siftup_perm _ 0 hlen0).trans (by rw [hset])
      have h1 : l = (h0 :: t0) ++ [l.getLastD default] := by
        rw [ht0] at hldecomp
        exact hldecomp.symm
      rw [h1, hxa]
      exact (List.Perm.cons h0 (List.perm_append_singleton _ _)).trans
        (List.Perm.cons _ hrperm.symm)

lemma foldl_heappush_perm :
    ∀ (children : List GridNode) (rest : List GridNode),
      (children.foldl heappush rest).Perm (children ++ rest) := by
  intro children
  induction children with
  | nil => intro rest; simp
  | cons c cs ih =>
    intro rest
    rw [List.foldl_cons]
    refine (ih (heappush rest c)).trans ?_
    exact (List.Perm.append_left cs (heappush_perm rest c)).trans
      List.perm_middle

/-- The number of in-bounds grid cells of a router. -/
def cellCount (r : PipeRouter) : ℕ :=
  (r.width / r.grid_size) * (r.height / r.grid_size)

/-- The bounds check of `_get_neighbors`. -/
def inBounds (r : PipeRouter) (c : Cell) : Prop :=
  0 ≤ c.1 ∧ c.1 < ((r.width / r.grid_size : ℕ) : ℤ) ∧
    0 ≤ c.2 ∧ c.2 < ((r.height / r.grid_size : ℕ) : ℤ)

/-- The invariant of every node ever held in the open list: a non-empty
parent chain visiting pairwise distinct cells, all but the original start
cell in bounds, and all but the node's own cell already closed. -/
def EI (r : PipeRouter) (closed : List Cell) (n : GridNode) : Prop :=
  n.path ≠ [] ∧ n.path.Nodup ∧ (∀ c ∈ n.path.dropLast, inBounds r c) ∧
    ∀ c ∈ n.path.tail, c ∈ closed

lemma EI_mono (r : PipeRouter) {c1 c2 : List Cell} (h : ∀ x ∈ c1, x ∈ c2)
    {n : GridNode} (hn : EI r c1 n) : EI r c2 n :=
  ⟨hn.1, hn.2.1, hn.2.2.1, fun c hc => h c (hn.2.2.2 c hc)⟩

lemma get_neighbors_inBounds (r : PipeRouter) (cell c : Cell) (k : ℕ)
    (h : (c, k) ∈ get_neighbors r cell) : inBounds r c := by
  rw [get_neighbors, List.mem_filterMap] at h
  obtain ⟨d, -, hd⟩ := h
  dsimp only at hd
  split_ifs at hd with h1 h2 h3
  · injection hd with h4
    have hcc : (cell.1 + d.1, cell.2 + d.2) = c := congrArg Prod.fst h4
    rw [inBounds, ← hcc]
    exact h1
  · injection hd with h4
    have hcc : (cell.1 + d.1, cell.2 + d.2) = c := congrArg Prod.fst h4
    rw [inBounds, ← hcc]
    exact h1

lemma make_children_shape (r : PipeRouter) (eg : Cell) (ps : Bool)
    (current : GridNode) (closed : List Cell) (ch : GridNode)
    (h : ch ∈ make_children r eg ps current closed) :
    ∃ nc k, (nc, k) ∈ get_neighbors r (nodeCell current) ∧ nc ∉ closed ∧
      ch.path = nc :: current.path := by
  rw [make_children, List.mem_filterMap] at h
  obtain ⟨p, hmem, hp⟩ := h
  dsimp only at hp
  split_ifs at hp with h1
  refine ⟨p.1, p.2, by simpa using hmem, h1, ?_⟩
  injection hp with h2
  rw [← h2]

lemma make_children_card (r : PipeRouter) (eg : Cell) (ps : Bool)
    (current : GridNode) (closed : List Cell) :
    (make_children r eg ps current closed).length ≤ 4 := by
  rw [make_children]
  refine le_trans (List.length_filterMap_le _ _) ?_
  rw [get_neighbors]
  exact le_trans (List.length_filterMap_le _ _) (by simp)

lemma EI_child (r : PipeRouter) (eg : Cell) (ps : Bool) (current : GridNode)
    (closed : List Cell) (hcur : EI r closed current) (ch : GridNode)
    (hch : ch ∈ make_children r eg ps current (nodeCell current :: closed)) :
    EI r (nodeCell current :: closed) ch := by
  obtain ⟨nc, k, hnb, hnotc, hpath⟩ := make_children_shape r eg ps current _ ch hch
  obtain ⟨hne, hnd, hib, htl⟩ := hcur
  obtain ⟨hd, tl, hcons⟩ : ∃ hd tl, current.path = hd :: tl := by
    cases hcp : current.path with
    | nil => exact absurd hcp hne
    | cons a b => exact ⟨a, b, rfl⟩
  have hhead : nodeCell current = hd := by rw [nodeCell, hcons]; rfl
  have hsub : ∀ c ∈ current.path, c ∈ nodeCell current :: closed := by
    intro c hc
    rw [hcons] at hc
    rcases List.mem_cons.mp hc with rfl | hc2
    · exact List.mem_cons.mpr (Or.inl hhead.symm)
    · exact List.mem_cons.mpr (Or.inr (htl c (by rw [hcons]; exact hc2)))
  refine ⟨by rw [hpath]; exact List.cons_ne_nil _ _, ?_, ?_, ?_⟩
  · rw [hpath]
    exact List.nodup_cons.mpr ⟨fun hmem => hnotc (hsub nc hmem), hnd⟩
  · intro c hc
    rw [hpath, List.dropLast_cons_of_ne_nil hne] at hc
    rcases List.mem_cons.mp hc with rfl | hc2
    · exact get_neighbors_inBounds r (nodeCell current) c k hnb
    · exact hib c hc2
  · intro c hc
    rw [hpath] at hc
    exact hsub c hc

lemma EI_length_le (r : PipeRouter) (closed : List Cell) (n : GridNode)
    (h : EI r closed n) : n.path.length ≤ cellCount r + 1 := by
  obtain ⟨hne, hnd, hib, -⟩ := h
  set S : Finset Cell := Finset.Ico (0 : ℤ) ((r.width / r.grid_size : ℕ) : ℤ) ×ˢ
    Finset.Ico (0 : ℤ) ((r.height / r.grid_size : ℕ) : ℤ) with hS
  have hcard : S.card = cellCount r := by
    have hw : ∀ m : ℕ, ((m : ℤ) - 0).toNat = m := fun m => by omega
    rw [hS, Finset.card_product, Int.card_Ico, Int.card_Ico, hw, hw, cellCount]
  have hsub : n.path.dropLast.toFinset ⊆ S := by
    intro c hc
    rw [List.mem_toFinset] at hc
    have hb := hib c hc
    rw [hS, Finset.mem_product, Finset.mem_Ico, Finset.mem_Ico]
    exact ⟨⟨hb.1, hb.2.1⟩, hb.2.2.1, hb.2.2.2⟩
  have hnd2 : n.path.dropLast.Nodup := (List.dropLast_sublist _).nodup hnd
  have hlen : n.path.dropLast.length ≤ S.card := by
    rw [← List.toFinset_card_of_nodup hnd2]
    exact Finset.card_le_card hsub
  have hdl : n.path.dropLast.length = n.path.length - 1 := List.length_dropLast _
  omega

/-- The weight of an open-list node in the termination measure: nodes with
longer paths weigh geometrically less. -/
def nodeWeight (N : ℕ) (n : GridNode) : ℕ := 5 ^ (N + 2 - n.path.length)

/-- The termination measure of the A* loop: the open list's total node
weight. -/
def heapMeasure (N : ℕ) (l : List GridNode) : ℕ :=
  (l.map (nodeWeight N)).sum

lemma heapMeasure_perm (N : ℕ) {l1 l2 : List GridNode} (h : l1.Perm l2) :
    heapMeasure N l1 = heapMeasure N l2 :=
  (h.map (nodeWeight N)).sum_eq

lemma sum_map_const_of {α : Type} (l : List α) (f : α → ℕ) (w : ℕ)
    (h : ∀ x ∈ l, f x = w) : (l.map f).sum = l.length * w := by
  induction l with
  | nil => simp
  | cons x t ih =>
    rw [List.map_cons, List.sum_cons, h x (List.mem_cons_self x t),
      ih (fun y hy => h y (List.mem_cons_of_mem x hy)), List.length_cons]
    ring

lemma astar_loop_pop_none (r : PipeRouter) (eg : Cell) (ps : Bool)
    (fuel : ℕ) (open_set : List GridNode) (closed_set : List Cell)
    (h : heappop open_set = none) :
    astar_loop r eg ps fuel open_set closed_set = some none := by
  rw [astar_loop, h]

lemma astar_loop_pop_found (r : PipeRouter) (eg : Cell) (ps : Bool)
    (fuel : ℕ) (open_set : List GridNode) (closed_set : List Cell)
    (current : GridNode) (rest : List GridNode)
    (h : heappop open_set = some (current, rest))
    (hend : nodeCell current = eg) :
    astar_loop r eg ps fuel open_set closed_set = some (some current) := by
  rw [astar_loop, h]
  show (if nodeCell current = eg then some (some current) else _) = _
  rw [if_pos hend]

lemma astar_loop_pop_zero (r : PipeRouter) (eg : Cell) (ps : Bool)
    (open_set : List GridNode) (closed_set : List Cell)
    (current : GridNode) (rest : List GridNode)
    (h : heappop open_set = some (current, rest))
    (hend : nodeCell current ≠ eg) :
    astar_loop r eg ps 0 open_set closed_set = none := by
  rw [astar_loop, h]
  show (if nodeCell current = eg then some (some current) else _) = _
  rw [if_neg hend]

lemma astar_loop_pop_step (r : PipeRouter) (eg : Cell) (ps : Bool)
    (fuel : ℕ) (open_set : List GridNode) (closed_set : List Cell)
    (current : GridNode) (rest : List GridNode)
    (h : heappop open_set = some (current, rest))
    (hend : nodeCell current ≠ eg) :
    astar_loop r eg ps (fuel + 1) open_set closed_set =
      astar_loop r eg ps fuel
        ((make_children r eg ps current (nodeCell current :: closed_set)).foldl
          heappush rest) (nodeCell current :: closed_set) := by
  rw [astar_loop, h]
  show (if nodeCell current = eg then some (some current) else _) = _
  rw [if_neg hend]

/-- The A* loop terminates within its fuel budget: whenever every open node
satisfies the entry invariant and the fuel dominates the measure, the loop
does not run out of fuel, and a found goal node carries a non-empty path. -/
lemma astar_loop_total (r : PipeRouter) (eg : Cell) (ps : Bool) :
    ∀ (fuel : ℕ) (open_set : List GridNode) (closed_set : List Cell),
      (∀ n ∈ open_set, EI r closed_set n) →
      heapMeasure (cellCount r) open_set ≤ fuel →
      astar_loop r eg ps fuel open_set closed_set ≠ none ∧
        ∀ n, astar_loop r eg ps fuel open_set closed_set = some (some n) →
          n.path ≠ [] := by
  intro fuel
  induction fuel with
  | zero =>
    intro open_set closed_set hEI hM
    cases hpop : heappop open_set with
    | none =>
      rw [astar_loop_pop_none r eg ps 0 open_set closed_set hpop]
      exact ⟨by simp, fun n hn => by simp at hn⟩
    | some pr =>
      obtain ⟨current, rest⟩ := pr
      have hperm := heappop_perm hpop
      have hcurmem : current ∈ open_set :=
        hperm.mem_iff.mpr (List.mem_cons_self _ _)
      have hcur : EI r closed_set current := hEI current hcurmem
      by_cases hend : nodeCell current = eg
      · rw [astar_loop_pop_found r eg ps 0 open_set closed_set current rest
          hpop hend]
        refine ⟨by simp, ?_⟩
        intro n hn
        obtain rfl : current = n := by simpa using hn
        exact hcur.1
      · exfalso
        have hmem2 : nodeWeight (cellCount r) current ∈
            open_set.map (nodeWeight (cellCount r)) :=
          List.mem_map_of_mem _ hcurmem
        have hle : nodeWeight (cellCount r) current ≤
            heapMeasure (cellCount r) open_set := by
          rw [heapMeasure]
          exact List.single_le_sum (fun x _ => Nat.zero_le x) _ hmem2
        have hpos : 0 < nodeWeight (cellCount r) current := by
          rw [nodeWeight]
          exact pow_pos (by norm_num) _
        omega
  | succ fuel ih =>
    intro open_set closed_set hEI hM
    cases hpop : heappop open_set with
    | none =>
      rw [astar_loop_pop_none r eg ps (fuel + 1) open_set closed_set hpop]
      exact ⟨by simp, fun n hn => by simp at hn⟩
    | some pr =>
      obtain ⟨current, rest⟩ := pr
      have hperm := heappop_perm hpop
      have hcurmem : current ∈ open_set :=
        hperm.mem_iff.mpr (List.mem_cons_self _ _)
      have hcur : EI r closed_set current := hEI current hcurmem
      by_cases hend : nodeCell current = eg
      · rw [astar_loop_pop_found r eg ps (fuel + 1) open_set closed_set
          current rest hpop hend]
        refine ⟨by simp, ?_⟩
        intro n hn
        obtain rfl : current = n := by simpa using hn
        exact hcur.1
      · have hEI2 : ∀ n ∈ (make_children r eg ps current
            (nodeCell current :: closed_set)).foldl heappush rest,
            EI r (nodeCell current :: closed_set) n := by
          intro n hn
          have hn2 := (foldl_heappush_perm _ rest).mem_iff.mp hn
          rcases List.mem_append.mp hn2 with h | h
          · exact EI_child r eg ps current closed_set hcur n h
          · exact EI_mono r (fun x hx => List.mem_cons_of_mem _ hx)
              (hEI n (hperm.mem_iff.mpr (List.mem_cons_of_mem _ h)))
        have hL : current.path.length ≤ cellCount r + 1 :=
          EI_length_le r closed_set current hcur
        have hMopen : heapMeasure (cellCount r) open_set =
            nodeWeight (cellCount r) current + heapMeasure (cellCount r) rest := by
          rw [heapMeasure_perm (cellCount r) hperm, heapMeasure, List.map_cons,
            List.sum_cons, heapMeasure]
        have hM2 : heapMeasure (cellCount r)
            ((make_children r eg ps current
              (nodeCell current :: closed_set)).foldl heappush rest) =
            heapMeasure (cellCount r)
              (make_children r eg ps current (nodeCell current :: closed_set)) +
              heapMeasure (cellCount r) rest := by
          rw [heapMeasure_perm (cellCount r) (foldl_heappush_perm _ rest),
            heapMeasure, List.map_append, List.sum_append, heapMeasure,
            heapMeasure]
        have hchw : ∀ ch ∈ make_children r eg ps current
            (nodeCell current :: closed_set),
            nodeWeight (cellCount r) ch =
              5 ^ (cellCount r + 1 - current.path.length) := by
          intro ch hch
          obtain ⟨nc, k, -, -, hpath⟩ :=
            make_children_shape r eg ps current _ ch hch
          rw [nodeWeight, hpath, List.length_cons]
          congr 1
          omega
        have hchsum : heapMeasure (cellCount r)
            (make_children r eg ps current (nodeCell current :: closed_set)) =
            (make_children r eg ps current
              (nodeCell current :: closed_set)).length *
              5 ^ (cellCount r + 1 - current.path.length) := by
          rw [heapMeasure]
          exact sum_map_const_of _ _ _ hchw
        have hlt : heapMeasure (cellCount r)
            (make_children r eg ps current (nodeCell current :: closed_set)) <
            nodeWeight (cellCount r) current := by
          rw [hchsum]
          have hwcur : nodeWeight (cellCount r) current =
              5 ^ ((cellCount r + 1 - current.path.length) + 1) := by
            rw [nodeWeight]
            congr 1
            omega
          rw [hwcur, pow_succ]
          have ht : 0 < 5 ^ (cellCount r + 1 - current.path.length) :=
            pow_pos (by norm_num) _
          calc (make_children r eg ps current
                (nodeCell current :: closed_set)).length *
                5 ^ (cellCount r + 1 - current.path.length)
              ≤ 4 * 5 ^ (cellCount r + 1 - current.path.length) :=
                Nat.mul_le_mul_right _ (make_children_card r eg ps current _)
            _ < 5 ^ (cellCount r + 1 - current.path.length) * 5 := by omega
        have hrec := ih ((make_children r eg ps current
            (nodeCell current :: closed_set)).foldl heappush rest)
          (nodeCell current :: closed_set) hEI2 (by omega)
        rw [astar_loop_pop_step r eg ps fuel open_set closed_set current rest
          hpop hend]
        exact hrec

lemma smooth_go_succ (path : List Point) (fuel i : ℕ) (acc : List Point) :
    smooth_go path (fuel + 1) i acc =
      if i < path.length - 1 then
        smooth_go path fuel (smooth_extend path i (i + 1) - 1)
          (acc ++ [path.getD (smooth_extend path i (i + 1) - 1) (0, 0)])
      else acc := rfl

lemma smooth_go_acc_ne_nil (path : List Point) :
    ∀ (fuel i : ℕ) (acc : List Point), acc ≠ [] →
      smooth_go path fuel i acc ≠ [] := by
  intro fuel
  induction fuel with
  | zero => intro i acc h; exact h
  | succ fuel ih =>
    intro i acc h
    rw [smooth_go_succ]
    split_ifs with h1
    · exact ih _ _ (by simp)
    · exact h

lemma smooth_path_ne_nil (path : List Point) (h : path ≠ []) :
    smooth_path path ≠ [] := by
  rw [smooth_path]
  split_ifs with h1
  · exact h
  · exact smooth_go_acc_ne_nil path path.length 0 _ (by simp)

lemma set_set_ne_nil (l : List Point) (h : l ≠ []) (a b : Point) :
    (l.set 0 a).set ((l.set 0 a).length - 1) b ≠ [] := by
  intro hcon
  have hlen := congrArg List.length hcon
  simp only [List.length_set, List.length_nil] at hlen
  exact h (List.length_eq_zero.mp hlen)

lemma find_path_fallback1 (r : PipeRouter) (start end_ : Point) (ps : Bool)
    (h : astar_result r start end_ ps = some none) :
    find_path r start end_ ps = fallback_path start end_ := by
  rw [find_path, h]

lemma find_path_fallback2 (r : PipeRouter) (start end_ : Point) (ps : Bool)
    (h : astar_result r start end_ ps = none) :
    find_path r start end_ ps = fallback_path start end_ := by
  rw [find_path, h]

lemma find_path_success_ne_nil (r : PipeRouter) (start end_ : Point)
    (ps : Bool) (n : GridNode)
    (h : astar_result r start end_ ps = some (some n)) (hn : n.path ≠ []) :
    find_path r start end_ ps ≠ [] := by
  rw [find_path, h]
  have hP0 : n.path.reverse.map (fun c =>
      (((c.1 : ℚ) * (r.grid_size : ℚ), (c.2 : ℚ) * (r.grid_size : ℚ)) : Point))
      ≠ [] := by
    simp [hn]
  have hP1 : (if ps then smooth_path (n.path.reverse.map (fun c =>
      (((c.1 : ℚ) * (r.grid_size : ℚ), (c.2 : ℚ) * (r.grid_size : ℚ)) : Point)))
      else n.path.reverse.map (fun c =>
      (((c.1 : ℚ) * (r.grid_size : ℚ), (c.2 : ℚ) * (r.grid_size : ℚ)) : Point)))
      ≠ [] := by
    split_ifs
    · exact smooth_path_ne_nil _ hP0
    · exact hP0
  exact set_set_ne_nil _ hP1 start end_

/-- C9: for every router state (hence every finite obstacle set and
pipe-occupancy set), every start/end pair and both straight-preference
settings, the A* search terminates — it never exhausts the fuel that bounds
its strictly decreasing open-list measure — and `find_path` returns a
non-empty path. -/
theorem C9_termination (r : PipeRouter) (start end_ : Point) (ps : Bool) :
    astar_result r start end_ ps ≠ none ∧ find_path r start end_ ps ≠ [] := by
  have hEIstart : ∀ n ∈ heappush []
      (⟨[to_grid r.grid_size start], 0,
        heuristic (to_grid r.grid_size start) (to_grid r.grid_size end_)⟩ :
        GridNode), EI r [] n := by
    intro n hn
    have hpush : heappush []
        (⟨[to_grid r.grid_size start], 0,
          heuristic (to_grid r.grid_size start) (to_grid r.grid_size end_)⟩ :
          GridNode) =
        [⟨[to_grid r.grid_size start], 0,
          heuristic (to_grid r.grid_size start) (to_grid r.grid_size end_)⟩] :=
      rfl
    rw [hpush, List.mem_singleton] at hn
    subst hn
    exact ⟨by simp, by simp, by simp, by simp⟩
  have hM : heapMeasure (cellCount r) (heappush []
      (⟨[to_grid r.grid_size start], 0,
        heuristic (to_grid r.grid_size start) (to_grid r.grid_size end_)⟩ :
        GridNode)) ≤ bigFuel r := by
    have hone : heapMeasure (cellCount r) (heappush []
        (⟨[to_grid r.grid_size start], 0,
          heuristic (to_grid r.grid_size start) (to_grid r.grid_size end_)⟩ :
          GridNode)) = 5 ^ (cellCount r + 1) := by
      have hpush : heappush []
          (⟨[to_grid r.grid_size start], 0,
            heuristic (to_grid r.grid_size start) (to_grid r.grid_size end_)⟩ :
            GridNode) =
          [⟨[to_grid r.grid_size start], 0,
            heuristic (to_grid r.grid_size start) (to_grid r.grid_size end_)⟩] :=
        rfl
      rw [hpush, heapMeasure]
      simp [nodeWeight]
    have hbig : bigFuel r = 5 ^ (cellCount r + 2) :=
      powBin_eq_pow _ 5 _ (le_refl _)
    rw [hone, hbig]
    exact Nat.pow_le_pow_right (by norm_num) (by omega)
  have hloop := astar_loop_total r (to_grid r.grid_size end_) ps (bigFuel r)
    (heappush []
      (⟨[to_grid r.grid_size start], 0,
        heuristic (to_grid r.grid_size start) (to_grid r.grid_size end_)⟩ :
        GridNode)) [] hEIstart hM
  have hres1 : astar_result r start end_ ps ≠ none := hloop.1
  have hres2 : ∀ n, astar_result r start end_ ps = some (some n) →
      n.path ≠ [] := hloop.2
  refine ⟨hres1, ?_⟩
  cases hres : astar_result r start end_ ps with
  | none => exact absurd hres hres1
  | some o =>
    cases o with
    | none =>
      rw [find_path_fallback1 r start end_ ps hres]
      simp [fallback_path]
    | some n =>
      exact find_path_success_ne_nil r start end_ ps n hres (hres2 n hres)

end EPS
